import Mathlib

/-!
Verification of the apy-ops reconciliation engine against its specification.

The Python sources under `src/apy_ops/` are shallowly embedded: JSON-valued
trees become the mutual inductive `Json`/`JsonList`/`JsonFields` (Python dicts
keep insertion order, hence fields are ordered lists); `hashlib.sha256` is
implemented bit-faithfully over `Nat` with explicit `% 2^32`; the filesystem
and the REST transport become explicit oracles; exceptions become `Except`.
-/

/-! ## Python-style string ordering (code-point lexicographic, as used by
`sorted` and `json.dumps(sort_keys=True)`) -/

/-- Lexicographic comparison of char lists by code point, the order Python
uses on `str`. -/
def lexLe : List Char → List Char → Bool
  | [], _ => true
  | _ :: _, [] => false
  | a :: as, b :: bs => if a = b then lexLe as bs else decide (a < b)

/-- Python string `<=` on `String`. -/
def strLe (a b : String) : Bool := lexLe a.data b.data

/-- Propositional form of `strLe`, for use with `List.insertionSort`. -/
def strLeP (a b : String) : Prop := strLe a b = true

instance : DecidableRel strLeP := fun a b => instDecidableEqBool (strLe a b) true

/-! ## JSON-valued trees

`src/apy_ops` traffics in values produced by `json.load`: `None`, `bool`,
`int`, `str`, `list`, `dict` (insertion-ordered, string keys). Floats do not
occur in any code path the claims touch and are not modelled. -/

mutual
inductive Json where
  | null : Json
  | bool (b : Bool) : Json
  | num (n : Int) : Json
  | str (s : String) : Json
  | arr (items : JsonList) : Json
  | obj (fields : JsonFields) : Json
inductive JsonList where
  | nil : JsonList
  | cons (hd : Json) (tl : JsonList) : JsonList
inductive JsonFields where
  | nil : JsonFields
  | cons (key : String) (val : Json) (tl : JsonFields) : JsonFields
end

/-- Python `dict.get key`: first binding wins (keys are unique in dicts). -/
def fieldsGet : JsonFields → String → Option Json
  | .nil, _ => none
  | .cons k v tl, key => if k = key then some v else fieldsGet tl key

/-- Python `d[key] = v`: replace the existing binding in place, else append. -/
def fieldsSet : JsonFields → String → Json → JsonFields
  | .nil, key, v => .cons key v .nil
  | .cons k w tl, key, v => if k = key then .cons k v tl else .cons k w (fieldsSet tl key v)

/-- Python `key in d` for a dict. -/
def fieldsHasKey : JsonFields → String → Bool
  | .nil, _ => false
  | .cons k _ tl, key => k = key || fieldsHasKey tl key

/-- Python `d.pop(key, None)`: drop the binding if present. -/
def fieldsPop : JsonFields → String → JsonFields
  | .nil, _ => .nil
  | .cons k v tl, key => if k = key then tl else .cons k v (fieldsPop tl key)

/-- Insert a key/value pair into a key-sorted field list, before the first
strictly larger key (stable; equal keys keep their order). -/
def fieldsInsertSorted (key : String) (v : Json) : JsonFields → JsonFields
  | .nil => .cons key v .nil
  | .cons k w tl =>
      if strLe key k then .cons key v (.cons k w tl)
      else .cons k w (fieldsInsertSorted key v tl)

/-- Stable insertion sort of a field list by key, the order `sort_keys=True`
emits object members in. -/
def fieldsSort : JsonFields → JsonFields
  | .nil => .nil
  | .cons k v tl => fieldsInsertSorted k v (fieldsSort tl)

/-- Python truthiness of a JSON value (`if value:`). -/
def pyTruthy : Json → Bool
  | .null => false
  | .bool b => b
  | .num n => n != 0
  | .str s => s != ""
  | .arr .nil => false
  | .arr _ => true
  | .obj .nil => false
  | .obj _ => true

mutual
/-- Recursively sort every object's fields by key. `jsonNormalize t` is the
member order `json.dumps(t, sort_keys=True)` serializes, so two trees with
equal normal forms have byte-identical canonical serializations. -/
def jsonNormalize : Json → Json
  | .null => .null
  | .bool b => .bool b
  | .num n => .num n
  | .str s => .str s
  | .arr items => .arr (jsonNormalizeList items)
  | .obj fields => .obj (fieldsSort (jsonNormalizeFields fields))
def jsonNormalizeList : JsonList → JsonList
  | .nil => .nil
  | .cons hd tl => .cons (jsonNormalize hd) (jsonNormalizeList tl)
def jsonNormalizeFields : JsonFields → JsonFields
  | .nil => .nil
  | .cons k v tl => .cons k (jsonNormalize v) (jsonNormalizeFields tl)
end

/-- Hex digit characters as `json.dumps` and `hexdigest` emit them (every
call site passes a value below 16). -/
def hexChar : Nat → Char
  | 0 => '0'
  | 1 => '1'
  | 2 => '2'
  | 3 => '3'
  | 4 => '4'
  | 5 => '5'
  | 6 => '6'
  | 7 => '7'
  | 8 => '8'
  | 9 => '9'
  | 10 => 'a'
  | 11 => 'b'
  | 12 => 'c'
  | 13 => 'd'
  | 14 => 'e'
  | _ => 'f'

/-- The sixteen lowercase hex digit characters. -/
def hexDigitsList : List Char :=
  ['0', '1', '2', '3', '4', '5', '6', '7', '8', '9'] ++ ['a', 'b', 'c', 'd', 'e', 'f']

/-- Four hex digits of a code point below 2^16, as in a `\uXXXX` escape. -/
def hex4 (n : Nat) : List Char :=
  [hexChar (n / 4096 % 16), hexChar (n / 256 % 16), hexChar (n / 16 % 16), hexChar (n % 16)]

/-- JSON string escaping as `json.dumps` performs it with the default
`ensure_ascii=True`: the two-character escapes for quote, backslash and the
common controls, `\u00XX` for other controls, `\uXXXX` (surrogate pairs
above the BMP) for every non-ASCII character. -/
def escapeChar (c : Char) : List Char :=
  if c = '"' then ['\\', '"']
  else if c = '\\' then ['\\', '\\']
  else if c = '\n' then ['\\', 'n']
  else if c = '\r' then ['\\', 'r']
  else if c = '\t' then ['\\', 't']
  else if c.toNat = 8 then ['\\', 'b']
  else if c.toNat = 12 then ['\\', 'f']
  else if c.toNat < 32 || c.toNat > 126 then
    if c.toNat < 65536 then '\\' :: 'u' :: hex4 c.toNat
    else
      let v := c.toNat - 65536
      ('\\' :: 'u' :: hex4 (55296 + v / 1024)) ++ ('\\' :: 'u' :: hex4 (56320 + v % 1024))
  else [c]

/-- A JSON string token: opening quote, escaped characters, closing quote. -/
def jsonQuote (s : String) : List Char := '"' :: s.data.flatMap escapeChar ++ ['"']

def lbrace : Char := Char.ofNat 123

def rbrace : Char := Char.ofNat 125

mutual
/-- Emit a JSON value with `separators=(",", ":")` — no inter-token
whitespace — in the order the fields stand. `json.dumps(t, sort_keys=True,
separators=(",", ":"))` is `serializeJson (jsonNormalize t)`. -/
def serializeJson : Json → List Char
  | .null => ['n', 'u', 'l', 'l']
  | .bool b => if b then ['t', 'r', 'u', 'e'] else ['f', 'a', 'l', 's', 'e']
  | .num n => (toString n).data
  | .str s => jsonQuote s
  | .arr items => '[' :: serializeJsonList items ++ [']']
  | .obj fields => lbrace :: serializeJsonFields fields ++ [rbrace]
def serializeJsonList : JsonList → List Char
  | .nil => []
  | .cons hd .nil => serializeJson hd
  | .cons hd (.cons hd2 tl) => serializeJson hd ++ ',' :: serializeJsonList (.cons hd2 tl)
def serializeJsonFields : JsonFields → List Char
  | .nil => []
  | .cons k v .nil => jsonQuote k ++ ':' :: serializeJson v
  | .cons k v (.cons k2 v2 tl) =>
      (jsonQuote k ++ ':' :: serializeJson v) ++ ',' :: serializeJsonFields (.cons k2 v2 tl)
end

/-- UTF-8 encoding of one code point. -/
def utf8Char (c : Char) : List Nat :=
  let n := c.toNat
  if n < 128 then [n]
  else if n < 2048 then [192 + n / 64, 128 + n % 64]
  else if n < 65536 then [224 + n / 4096, 128 + (n / 64) % 64, 128 + n % 64]
  else [240 + n / 262144, 128 + (n / 4096) % 64, 128 + (n / 64) % 64, 128 + n % 64]

/-- UTF-8 encoding of a character sequence (`str.encode("utf-8")`). -/
def utf8Encode : List Char → List Nat
  | [] => []
  | c :: cs => utf8Char c ++ utf8Encode cs

/-! ## SHA-256 (FIPS 180-4), over `Nat` with explicit reduction mod 2^32 -/

/-- Truncate to a 32-bit word. -/
def w32 (n : Nat) : Nat := n % 4294967296

/-- Right-rotation of a 32-bit word. -/
def rotr32 (n x : Nat) : Nat := x / 2 ^ n + x % 2 ^ n * 2 ^ (32 - n)

/-- Logical right shift. -/
def shr32 (n x : Nat) : Nat := x / 2 ^ n

def xor3 (a b c : Nat) : Nat := (a ^^^ b) ^^^ c

def bigSigma0 (x : Nat) : Nat := xor3 (rotr32 2 x) (rotr32 13 x) (rotr32 22 x)

def bigSigma1 (x : Nat) : Nat := xor3 (rotr32 6 x) (rotr32 11 x) (rotr32 25 x)

def smallSigma0 (x : Nat) : Nat := xor3 (rotr32 7 x) (rotr32 18 x) (shr32 3 x)

def smallSigma1 (x : Nat) : Nat := xor3 (rotr32 17 x) (rotr32 19 x) (shr32 10 x)

/-- Ch(x,y,z) with bitwise complement of `x` taken inside 32 bits. -/
def chF (x y z : Nat) : Nat := (x &&& y) ^^^ ((4294967295 - x) &&& z)

def majF (x y z : Nat) : Nat := ((x &&& y) ^^^ (x &&& z)) ^^^ (y &&& z)

/-- The 64 SHA-256 round constants. -/
def sha256K : List Nat :=
  [1116352408, 1899447441, 3049323471, 3921009573, 961987163, 1508970993,
   2453635748, 2870763221, 3624381080, 310598401, 607225278, 1426881987,
   1925078388, 2162078206, 2614888103, 3248222580, 3835390401, 4022224774,
   264347078, 604807628, 770255983, 1249150122, 1555081692, 1996064986,
   2554220882, 2821834349, 2952996808, 3210313671, 3336571891, 3584528711,
   113926993, 338241895, 666307205, 773529912, 1294757372, 1396182291,
   1695183700, 1986661051, 2177026350, 2456956037, 2730485921, 2820302411,
   3259730800, 3345764771, 3516065817, 3600352804, 4094571909, 275423344,
   430227734, 506948616, 659060556, 883997877, 958139571, 1322822218,
   1537002063, 1747873779, 1955562222, 2024104815, 2227730452, 2361852424,
   2428436474, 2756734187, 3204031479, 3329325298]

structure Sha256State where
  h0 : Nat
  h1 : Nat
  h2 : Nat
  h3 : Nat
  h4 : Nat
  h5 : Nat
  h6 : Nat
  h7 : Nat

/-- SHA-256 initial hash value. -/
def sha256Init : Sha256State :=
  ⟨1779033703, 3144134277, 1013904242, 2773480762, 1359893119, 2600822924, 528734635, 1541459225⟩

/-- Big-endian 32-bit words from a byte list. -/
def bytesToWords : List Nat → List Nat
  | b0 :: b1 :: b2 :: b3 :: rest => (((b0 * 256 + b1) * 256 + b2) * 256 + b3) :: bytesToWords rest
  | _ => []

/-- SHA-256 padding: `0x80`, zeros to 56 mod 64, 8-byte big-endian bit length. -/
def padMessage (msg : List Nat) : List Nat :=
  let len := msg.length
  let zeros := (64 - (len + 9) % 64) % 64
  let bitLen := 8 * len % 2 ^ 64
  msg ++ [128] ++ List.replicate zeros 0 ++
    [bitLen / 2 ^ 56 % 256, bitLen / 2 ^ 48 % 256, bitLen / 2 ^ 40 % 256,
     bitLen / 2 ^ 32 % 256, bitLen / 2 ^ 24 % 256, bitLen / 2 ^ 16 % 256,
     bitLen / 2 ^ 8 % 256, bitLen % 256]

/-- Split into 64-byte blocks; the fuel (initial length) bounds the number of
blocks, and a nonempty list always consumes fuel, so it is never exhausted. -/
def chunkifyGo : Nat → List Nat → List (List Nat)
  | 0, _ => []
  | _, [] => []
  | fuel + 1, l => l.take 64 :: chunkifyGo fuel (l.drop 64)

def chunkify (l : List Nat) : List (List Nat) := chunkifyGo l.length l

/-- Extend 16 message-schedule words to 64. -/
def extendSchedule (ws : List Nat) : List Nat :=
  (List.range 48).foldl
    (fun acc _ =>
      let n := acc.length
      let next := w32 (smallSigma1 (acc.getD (n - 2) 0) + acc.getD (n - 7) 0 +
                       smallSigma0 (acc.getD (n - 15) 0) + acc.getD (n - 16) 0)
      acc ++ [next]) ws

/-- One SHA-256 compression over a 64-byte block. -/
def processChunk (st : Sha256State) (chunk : List Nat) : Sha256State :=
  let ws := extendSchedule (bytesToWords chunk)
  let final := (sha256K.zip ws).foldl
    (fun (t : Sha256State) (kw : Nat × Nat) =>
      let t1 := w32 (t.h7 + bigSigma1 t.h4 + chF t.h4 t.h5 t.h6 + kw.1 + kw.2)
      let t2 := w32 (bigSigma0 t.h0 + majF t.h0 t.h1 t.h2)
      ⟨w32 (t1 + t2), t.h0, t.h1, t.h2, w32 (t.h3 + t1), t.h4, t.h5, t.h6⟩) st
  ⟨w32 (st.h0 + final.h0), w32 (st.h1 + final.h1), w32 (st.h2 + final.h2), w32 (st.h3 + final.h3),
   w32 (st.h4 + final.h4), w32 (st.h5 + final.h5), w32 (st.h6 + final.h6), w32 (st.h7 + final.h7)⟩

/-- Big-endian bytes of one word. -/
def word4 (w : Nat) : List Nat := [w / 2 ^ 24 % 256, w / 2 ^ 16 % 256, w / 2 ^ 8 % 256, w % 256]

/-- SHA-256 digest (32 bytes) of a byte message. Checked against the FIPS
test vectors for the empty string and "abc". -/
def sha256 (msg : List Nat) : List Nat :=
  let final := (chunkify (padMessage msg)).foldl processChunk sha256Init
  word4 final.h0 ++ word4 final.h1 ++ word4 final.h2 ++ word4 final.h3 ++
  word4 final.h4 ++ word4 final.h5 ++ word4 final.h6 ++ word4 final.h7

/-- Lowercase hex of a byte string (`hexdigest`). -/
def hexOfBytes (bs : List Nat) : List Char :=
  bs.flatMap (fun b => [hexChar (b / 16), hexChar (b % 16)])

/-- `artifact_reader.compute_hash`: SHA-256 of the canonical (sorted-keys,
no-whitespace) JSON serialization, prefixed with `sha256:`. -/
def compute_hash (properties : Json) : String :=
  "sha256:" ++ String.mk (hexOfBytes (sha256 (utf8Encode (serializeJson (jsonNormalize properties)))))

/-- Two JSON trees are semantically equal when they agree up to the order of
mapping keys at every nesting depth, i.e. when recursively sorting every
object's members produces the same tree. -/
def semanticallyEqual (t1 t2 : Json) : Prop := jsonNormalize t1 = jsonNormalize t2

/-! ## The differ (`differ.py`) -/

def CREATE : String := "create"

def UPDATE : String := "update"

def DELETE : String := "delete"

def NOOP : String := "noop"

/-- An artifact record as the engine passes it around: at minimum
`type`, `id`, `hash` and `properties`; the composite `api` kind additionally
carries `spec` (a dict or `None`) and `operations` (a dict of operation
properties by operation id). Artifact dicts always hold these non-empty
mappings, so Python truthiness of an artifact is `isSome` here. -/
structure Artifact where
  type : String
  id : String
  hash : String
  properties : Json
  spec : Option Json := none
  operations : JsonFields := .nil

/-- One diff entry. `display_name` and `detail` are presentation-only strings
(consumed by the console printer) and are not modelled. -/
structure Change where
  action : String
  key : String
  type : String
  id : String
  old : Option Artifact
  new : Option Artifact

/-- Python `dict.get` over an insertion-ordered mapping. -/
def dict_get : List (String × α) → String → Option α
  | [], _ => none
  | (k2, v) :: tl, k => if k2 = k then some v else dict_get tl k

/-- Python `d[k] = v`: replace in place, else append. -/
def dict_set (m : List (String × α)) (k : String) (v : α) : List (String × α) :=
  match m with
  | [] => [(k, v)]
  | (k2, v2) :: tl => if k2 = k then (k, v) :: tl else (k2, v2) :: dict_set tl k v

/-- Python `d.pop(k, None)`: drop the binding if present. -/
def dict_pop (m : List (String × α)) (k : String) : List (String × α) :=
  match m with
  | [] => []
  | (k2, v2) :: tl => if k2 = k then tl else (k2, v2) :: dict_pop tl k

/-- `sorted(set(local) | set(state))`: the union of the two key sets in
lexicographic order, each key once. -/
def sorted_keys (local_artifacts state_artifacts : List (String × Artifact)) : List String :=
  List.insertionSort strLeP
    ((local_artifacts.map (fun p => p.1) ++ state_artifacts.map (fun p => p.1)).dedup)

/-- `differ.diff`: one change per key of the union, iterating keys in sorted
order; CREATE when only local, DELETE when only state, UPDATE when both with
differing hashes, NOOP otherwise. (The `none, none` branch mirrors the Python
fall-through in which no change is appended; it is unreachable for keys of
the union.) -/
def diff (local_artifacts state_artifacts : List (String × Artifact)) : List Change :=
  (sorted_keys local_artifacts state_artifacts).filterMap (fun key =>
    match dict_get local_artifacts key, dict_get state_artifacts key with
    | some l, none => some ⟨CREATE, key, l.type, l.id, none, some l⟩
    | none, some s => some ⟨DELETE, key, s.type, s.id, some s, none⟩
    | some l, some s =>
        if l.hash ≠ s.hash then some ⟨UPDATE, key, l.type, l.id, some s, some l⟩
        else some ⟨NOOP, key, l.type, l.id, some s, some l⟩
    | none, none => none)

/-! ## The kind registry and execution ordering (`artifacts/__init__.py`,
`planner.py`) -/

/-- `DEPLOY_ORDER`, as the 22 `ARTIFACT_TYPE` names of the registered modules
in registry order. The `named_values` and `tags` module files are not in the
provided sources; their type-name constants `"named_value"` and `"tag"` are
pinned by `tests/test_artifacts.py` and the spec's kind table. -/
def deploy_order : List String :=
  ["named_value", "gateway", "tag", "version_set", "backend", "logger", "diagnostic",
   "policy_fragment", "service_policy", "product", "group", "api", "subscription",
   "api_policy", "api_tag", "api_diagnostic", "gateway_api", "product_policy",
   "product_group", "product_tag", "product_api", "api_operation_policy"]

/-- `type_order.get(c["type"], 999)`: index of a kind in the registry, 999
for unknown kinds. -/
def type_order (t : String) : Nat := (deploy_order.findIdx? (fun s => s == t)).getD 999

/-- The creates/updates partition predicate of `order_changes`. -/
def isCreateOrUpdate (c : Change) : Bool := c.action == CREATE || c.action == UPDATE

/-- The deletes partition predicate of `order_changes`. -/
def isDeleteChange (c : Change) : Bool := c.action == DELETE

/-- Ascending deployment order on changes (`list.sort(key=...)`). -/
def cuLe (a b : Change) : Prop := type_order a.type ≤ type_order b.type

instance : DecidableRel cuLe := fun a b => Nat.decLe (type_order a.type) (type_order b.type)

/-- Descending deployment order on changes (`list.sort(key=..., reverse=True)`;
Python's sort is stable, so ties keep their input order under both). -/
def delLe (a b : Change) : Prop := type_order b.type ≤ type_order a.type

instance : DecidableRel delLe := fun a b => Nat.decLe (type_order b.type) (type_order a.type)

/-- `planner.order_changes`: creates/updates sorted in forward deploy order,
then deletes sorted in reverse deploy order; NOOPs fall through both filters. -/
def order_changes (changes : List Change) : List Change :=
  let creates_updates := changes.filter isCreateOrUpdate
  let deletes := changes.filter isDeleteChange
  creates_updates.insertionSort cuLe ++ deletes.insertionSort delLe


/-! ## The REST transport (`apim_client.py`, `exceptions.py`) -/

/-- The exception classes of `exceptions.py`. `rateLimit`, `conflict`,
`preconditionFailed`, `unprocessable` and `server` subclass
`ApimTransientError`; `badRequest`, `unauthorized`, `forbidden` and
`notFound` subclass `ApimPermanentError`; `base` is a bare `ApimError`. -/
inductive ApimCls where
  | rateLimit : ApimCls
  | conflict : ApimCls
  | preconditionFailed : ApimCls
  | unprocessable : ApimCls
  | server : ApimCls
  | badRequest : ApimCls
  | unauthorized : ApimCls
  | forbidden : ApimCls
  | notFound : ApimCls
  | base : ApimCls
  deriving DecidableEq, Repr

/-- Membership in the `ApimTransientError` subclass hierarchy. -/
def isTransientCls : ApimCls → Bool
  | .rateLimit | .conflict | .preconditionFailed | .unprocessable | .server => true
  | _ => false

/-- Membership in the `ApimPermanentError` subclass hierarchy. -/
def isPermanentCls : ApimCls → Bool
  | .badRequest | .unauthorized | .forbidden | .notFound => true
  | _ => false

/-- An `ApimError` instance: its class plus the constructor arguments. -/
structure ApimExc where
  cls : ApimCls
  message : String
  status_code : Option Nat
  error_code : Option Json
  target : Option Json
  request_id : Option String

/-- A Python exception as the transport can produce it: an `ApimError`, or an
unclassified builtin exception (`TypeError`, `AttributeError`, `ValueError`).
-/
inductive PyExc where
  | apim (e : ApimExc) : PyExc
  | typeError : PyExc
  | attributeError : PyExc
  | valueError : PyExc

/-- An HTTP response as the retry envelope observes it: status code, the JSON
body when `response.json()` succeeds (`none` means the body is not valid
JSON), the raw text, and the `x-ms-request-id` header. The `Retry-After`
header only affects sleep durations, which no claim mentions, so it is not
modelled. -/
structure HttpResponse where
  status_code : Nat
  body : Option Json
  text : String
  header_request_id : Option String

/-- The `{code, message, target, request_id}` dict `_parse_error` returns.
Every key is always present; a `none` field is Python `None`. -/
structure ErrorDetail where
  code : Option Json
  message : Option Json
  target : Option Json
  request_id : Option String

/-- `apim_client._parse_error`: pull `error.code/message/target` out of the
Azure error body, falling back to the raw text when the body is not JSON.
A JSON body that is not an object (or whose `error` member is neither absent
nor an object) makes `.get` raise `AttributeError`, as in Python. -/
def parse_error (response : HttpResponse) : Except PyExc ErrorDetail :=
  match response.body with
  | some data =>
      match data with
      | .obj fields =>
          match (fieldsGet fields "error").getD (.obj .nil) with
          | .obj efields =>
              .ok ⟨fieldsGet efields "code", fieldsGet efields "message",
                   fieldsGet efields "target", response.header_request_id⟩
          | _ => .error .attributeError
      | _ => .error .attributeError
  | none =>
      .ok ⟨none,
           some (.str (if response.text ≠ "" then response.text
                       else "HTTP " ++ toString response.status_code)),
           none, response.header_request_id⟩

/-- Bool-valued check that `needle` occurs as a contiguous substring. -/
def charsStartWith : List Char → List Char → Bool
  | [], _ => true
  | _ :: _, [] => false
  | a :: as, b :: bs => a = b && charsStartWith as bs

/-- Substring containment on char lists (Python `needle in haystack` for
strings). -/
def charsContain (needle : List Char) : List Char → Bool
  | [] => charsStartWith needle []
  | c :: cs => charsStartWith needle (c :: cs) || charsContain needle cs

/-- Python membership test on a JSON list: `x in [..]` compares elements for
equality; only string elements can equal a string. -/
def jsonListHasStr : JsonList → String → Bool
  | .nil, _ => false
  | .cons (.str s) tl, needle => s = needle || jsonListHasStr tl needle
  | .cons _ tl, needle => jsonListHasStr tl needle

/-- Python `needle in value` for an arbitrary value: substring test on `str`,
element test on `list`, key test on `dict`, `TypeError` on `None`, numbers
and booleans. -/
def pyIn (needle : String) : Option Json → Except PyExc Bool
  | some (.str s) => .ok (charsContain needle.data s.data)
  | some (.arr items) => .ok (jsonListHasStr items needle)
  | some (.obj fields) => .ok (fieldsHasKey fields needle)
  | some .null => .error .typeError
  | some (.bool _) => .error .typeError
  | some (.num _) => .error .typeError
  | none => .error .typeError

/-- `apim_client._should_retry`. `_parse_error` always populates the `code`
key, so `error_detail.get("code", "")` yields the stored value — `None` when
no code was parsed — and the substring tests run on it directly. -/
def should_retry (response : HttpResponse) (error_detail : ErrorDetail) : Except PyExc Bool :=
  if response.status_code = 429 then .ok true
  else if response.status_code = 412 then .ok true
  else if response.status_code ≥ 500 then .ok true
  else if response.status_code = 409 then do
    let b1 ← pyIn "PessimisticConcurrencyConflict" error_detail.code
    if b1 then .ok true
    else do
      let b2 ← pyIn "Conflict" error_detail.code
      if b2 then .ok true else .ok false
  else if response.status_code = 422 then do
    let b ← pyIn "ManagementApiFailure" error_detail.code
    if b then .ok true else .ok false
  else .ok false

/-- Python `str()` of a JSON value, for message formatting. Only the `str`,
number, boolean and `None` cases are exercised by the sources on realistic
error bodies; containers are rendered via the JSON serializer. -/
def pyToStr : Json → String
  | .str s => s
  | .num n => toString n
  | .bool b => if b then "True" else "False"
  | .null => "None"
  | j => String.mk (serializeJson j)

/-- `apim_client._create_exception`: pick the exception class by status code
and build its message from the parsed detail. -/
def create_exception (response : HttpResponse) (error_detail : ErrorDetail) : ApimExc :=
  let status := response.status_code
  let message :=
    match error_detail.message with
    | some m => if pyTruthy m then pyToStr m else "HTTP " ++ toString status
    | none => "HTTP " ++ toString status
  let full_message :=
    match error_detail.code with
    | some c => if pyTruthy c then pyToStr c ++ ": " ++ message else message
    | none => message
  let cls : ApimCls :=
    if status = 429 then .rateLimit
    else if status = 409 then .conflict
    else if status = 412 then .preconditionFailed
    else if status = 422 then .unprocessable
    else if status ≥ 500 then .server
    else if status = 400 then .badRequest
    else if status = 401 then .unauthorized
    else if status = 403 then .forbidden
    else if status = 404 then .notFound
    else .base
  ⟨cls, full_message, some status, error_detail.code, error_detail.target,
   error_detail.request_id⟩

def MAX_RETRIES : Nat := 5

def INITIAL_BACKOFF : Nat := 1

/-- The `for attempt in range(MAX_RETRIES + 1)` loop of `_with_retry` over a
response stream `f` (the outcome of the n-th HTTP attempt). `remaining` is
`MAX_RETRIES - attempt`, so `attempt < MAX_RETRIES` is `remaining > 0`; the
returned `Nat` is the number of HTTP attempts made. Sleeps (`Retry-After` /
exponential backoff) pass no information to later iterations except the
doubling `backoff`, carried here untouched. -/
def with_retry_go (f : Nat → HttpResponse) : Nat → Nat → Nat → Except PyExc HttpResponse × Nat
  | _, attempt, 0 =>
      let resp := f attempt
      if resp.status_code < 400 then (.ok resp, attempt + 1)
      else
        match parse_error resp with
        | .error e => (.error e, attempt + 1)
        | .ok error_detail =>
            match should_retry resp error_detail with
            | .error e => (.error e, attempt + 1)
            | .ok _ => (.error (.apim (create_exception resp error_detail)), attempt + 1)
  | backoff, attempt, remaining + 1 =>
      let resp := f attempt
      if resp.status_code < 400 then (.ok resp, attempt + 1)
      else
        match parse_error resp with
        | .error e => (.error e, attempt + 1)
        | .ok error_detail =>
            match should_retry resp error_detail with
            | .error e => (.error e, attempt + 1)
            | .ok sr =>
                if sr then with_retry_go f (backoff * 2) (attempt + 1) remaining
                else (.error (.apim (create_exception resp error_detail)), attempt + 1)

/-- `_with_retry` around an HTTP request: up to `MAX_RETRIES + 1` attempts. -/
def with_retry (f : Nat → HttpResponse) : Except PyExc HttpResponse × Nat :=
  with_retry_go f INITIAL_BACKOFF 0 MAX_RETRIES

/-- `ApimClient.delete` over a response stream: run the retried request and
swallow `ApimNotFoundError` (404 on delete means already gone). -/
def client_delete (f : Nat → HttpResponse) : Except PyExc Unit :=
  match (with_retry f).1 with
  | .ok _ => .ok ()
  | .error (.apim e) => if e.cls = .notFound then .ok () else .error (.apim e)
  | .error e => .error e

/-! ## Filesystem model and the reference resolver (`artifact_reader.py`) -/

/-- A file on disk, as the readers consume it: its raw text, and the results
of `json.load` / `yaml.safe_load` on it (`none` when the parse raises). For
files the model itself writes, `parsed` is the written tree (Python's
`json.load` inverts `json.dump` on these values). -/
structure FileContent where
  text : String
  parsed : Option Json := none
  parsedYaml : Option Json := none

/-- The visible filesystem: a mapping from paths to file contents.
Directories are implicit: a path is a directory when some file lives under
it. -/
abbrev FS := List (String × FileContent)

def os_path_join (base rel : String) : String := base ++ "/" ++ rel

def fs_lookup (fs : FS) (p : String) : Option FileContent := dict_get fs p

/-- `os.path.isfile`. -/
def fs_isfile (fs : FS) (p : String) : Bool := (fs_lookup fs p).isSome

/-- `os.path.isdir`: some file lives strictly below the path. -/
def fs_isdir (fs : FS) (p : String) : Bool :=
  fs.any (fun e => charsStartWith (p ++ "/").data e.1.data)

/-- Name of the immediate child of `base` on the way to `path`, when `path`
lies below `base`. -/
def childNameOf (base path : String) : Option String :=
  if charsStartWith (base ++ "/").data path.data then
    some (String.mk ((path.data.drop (base ++ "/").data.length).takeWhile (fun c => c ≠ '/')))
  else none

/-- `os.listdir`: immediate children of a directory, each once (order is
irrelevant since every caller sorts). -/
def fs_listdir (fs : FS) (p : String) : List String :=
  (fs.filterMap (fun e => childNameOf p e.1)).dedup

/-- `json.load` on a file: the parsed tree, or `ValueError` when the file is
not valid JSON. Missing files raise in Python as well (`FileNotFoundError`),
folded into the same error here since no caller distinguishes them. -/
def read_json (fs : FS) (p : String) : Except PyExc Json :=
  match fs_lookup fs p with
  | some fc => match fc.parsed with
    | some j => .ok j
    | none => .error .valueError
  | none => .error .valueError

/-- True when the key has the shape `$ref-<name>` or `$refs-<name>` (those
entries' values are substituted, not recursed into). -/
def isRefKey (k : String) : Bool :=
  charsStartWith "$ref-".data k.data || charsStartWith "$refs-".data k.data

mutual
/-- `artifact_reader.resolve_refs`: substitute `$ref-*` / `$refs-*` sibling
file references, recursing into nested dicts and into dict elements of
lists; any non-dict argument is returned unchanged. The result dict is built
by Python dict assignment (replace in place, else append). The filesystem
and base directory are leading parameters here (they are constant through
the recursion). -/
def resolve_refs (fs : FS) (base_dir : String) : Json → Except PyExc Json
  | .obj fields =>
      match resolveFieldsGo fs base_dir fields .nil with
      | .ok r => .ok (.obj r)
      | .error e => .error e
  | props => .ok props
def resolveFieldsGo (fs : FS) (base_dir : String) :
    JsonFields → JsonFields → Except PyExc JsonFields
  | .nil, resolved => .ok resolved
  | .cons key value tl, resolved =>
      if charsStartWith "$ref-".data key.data then
        let ref_name := String.mk (key.data.drop 5)
        let v :=
          match value with
          | .str pathStr =>
              match fs_lookup fs (os_path_join base_dir pathStr) with
              | some fc => Json.str fc.text
              | none => value
          | _ => value
        resolveFieldsGo fs base_dir tl (fieldsSet resolved ref_name v)
      else if charsStartWith "$refs-".data key.data then
        let ref_name := String.mk (key.data.drop 6)
        let vE : Except PyExc Json :=
          match value with
          | .str pathStr =>
              match fs_lookup fs (os_path_join base_dir pathStr) with
              | some fc =>
                  match fc.parsed with
                  | some j => .ok j
                  | none => .error .valueError
              | none => .ok value
          | _ => .ok value
        match vE with
        | .ok v => resolveFieldsGo fs base_dir tl (fieldsSet resolved ref_name v)
        | .error e => .error e
      else
        match value with
        | .obj f =>
            match resolve_refs fs base_dir (.obj f) with
            | .ok v => resolveFieldsGo fs base_dir tl (fieldsSet resolved key v)
            | .error e => .error e
        | .arr items =>
            match resolveListItems fs base_dir items with
            | .ok items2 => resolveFieldsGo fs base_dir tl (fieldsSet resolved key (.arr items2))
            | .error e => .error e
        | _ => resolveFieldsGo fs base_dir tl (fieldsSet resolved key value)
def resolveListItems (fs : FS) (base_dir : String) : JsonList → Except PyExc JsonList
  | .nil => .ok .nil
  | .cons hd tl =>
      match hd with
      | .obj f =>
          match resolve_refs fs base_dir (.obj f) with
          | .ok hd2 =>
              match resolveListItems fs base_dir tl with
              | .ok tl2 => .ok (.cons hd2 tl2)
              | .error e => .error e
          | .error e => .error e
      | _ =>
          match resolveListItems fs base_dir tl with
          | .ok tl2 => .ok (.cons hd tl2)
          | .error e => .error e
end

/-- The key a source entry contributes to the resolved dict: `$ref-<name>` and
`$refs-<name>` contribute `<name>`, every other key itself. -/
def outName (k : String) : String :=
  if charsStartWith "$ref-".data k.data then String.mk (k.data.drop 5)
  else if charsStartWith "$refs-".data k.data then String.mk (k.data.drop 6)
  else k

def fieldsOutNames : JsonFields → List String
  | .nil => []
  | .cons k _ tl => outName k :: fieldsOutNames tl

def listNodup : List String → Bool
  | [] => true
  | x :: xs => !xs.contains x && listNodup xs

mutual
/-- No two entries of any dict reached by the resolver's recursion contribute
the same resolved key, so dict building never overwrites. Python sources
satisfy this: a tree would need both `$ref-x` and `x` (or a duplicate dict
key, impossible) to violate it. -/
def noCollisions : Json → Bool
  | .obj fields => listNodup (fieldsOutNames fields) && noCollisionsEntries fields
  | _ => true
def noCollisionsEntries : JsonFields → Bool
  | .nil => true
  | .cons k v tl =>
      if isRefKey k then noCollisionsEntries tl
      else
        match v with
        | .obj f => noCollisions (.obj f) && noCollisionsEntries tl
        | .arr items => noCollisionsInList items && noCollisionsEntries tl
        | _ => noCollisionsEntries tl
def noCollisionsInList : JsonList → Bool
  | .nil => true
  | .cons hd tl =>
      match hd with
      | .obj f => noCollisions (.obj f) && noCollisionsInList tl
      | _ => noCollisionsInList tl
end

mutual
/-- Spec-shaped resolver, following the claim's wording: each entry of the
mapping is transformed in place — `$ref-<name>` with a string value naming an
existing file becomes `<name>` bound to that file's raw text, `$refs-<name>`
to the file parsed as JSON, a missing file leaves `<name>` bound to the
original path string, nested mappings and mapping elements of sequences are
recursed into, and every other value is left unchanged. Differs from
`resolve_refs` only in building the output positionally instead of by dict
assignment; `resolve_refs_matches_spec` proves them equal on collision-free
inputs. -/
def resolve_refs_spec (fs : FS) (base_dir : String) : Json → Except PyExc Json
  | .obj fields =>
      match resolveSpecFields fs base_dir fields with
      | .ok r => .ok (.obj r)
      | .error e => .error e
  | props => .ok props
def resolveSpecFields (fs : FS) (base_dir : String) : JsonFields → Except PyExc JsonFields
  | .nil => .ok .nil
  | .cons key value tl =>
      if charsStartWith "$ref-".data key.data then
        let ref_name := String.mk (key.data.drop 5)
        let v :=
          match value with
          | .str pathStr =>
              match fs_lookup fs (os_path_join base_dir pathStr) with
              | some fc => Json.str fc.text
              | none => value
          | _ => value
        match resolveSpecFields fs base_dir tl with
        | .ok tl2 => .ok (.cons ref_name v tl2)
        | .error e => .error e
      else if charsStartWith "$refs-".data key.data then
        let ref_name := String.mk (key.data.drop 6)
        let vE : Except PyExc Json :=
          match value with
          | .str pathStr =>
              match fs_lookup fs (os_path_join base_dir pathStr) with
              | some fc =>
                  match fc.parsed with
                  | some j => .ok j
                  | none => .error .valueError
              | none => .ok value
          | _ => .ok value
        match vE with
        | .ok v =>
            match resolveSpecFields fs base_dir tl with
            | .ok tl2 => .ok (.cons ref_name v tl2)
            | .error e => .error e
        | .error e => .error e
      else
        match value with
        | .obj f =>
            match resolve_refs_spec fs base_dir (.obj f) with
            | .ok v =>
                match resolveSpecFields fs base_dir tl with
                | .ok tl2 => .ok (.cons key v tl2)
                | .error e => .error e
            | .error e => .error e
        | .arr items =>
            match resolveSpecListItems fs base_dir items with
            | .ok items2 =>
                match resolveSpecFields fs base_dir tl with
                | .ok tl2 => .ok (.cons key (.arr items2) tl2)
                | .error e => .error e
            | .error e => .error e
        | _ =>
            match resolveSpecFields fs base_dir tl with
            | .ok tl2 => .ok (.cons key value tl2)
            | .error e => .error e
def resolveSpecListItems (fs : FS) (base_dir : String) : JsonList → Except PyExc JsonList
  | .nil => .ok .nil
  | .cons hd tl =>
      match hd with
      | .obj f =>
          match resolve_refs_spec fs base_dir (.obj f) with
          | .ok hd2 =>
              match resolveSpecListItems fs base_dir tl with
              | .ok tl2 => .ok (.cons hd2 tl2)
              | .error e => .error e
          | .error e => .error e
      | _ =>
          match resolveSpecListItems fs base_dir tl with
          | .ok tl2 => .ok (.cons hd tl2)
          | .error e => .error e
end

/-- `artifact_reader.extract_id_from_path`: last path component after
stripping trailing slashes. -/
def extract_id_from_path (id_path : String) : String :=
  let stripped := (id_path.data.reverse.dropWhile (fun c => c = '/')).reverse
  String.mk ((stripped.reverse.takeWhile (fun c => c ≠ '/')).reverse)

/-! ## The composite `api` artifact module (`artifacts/apis.py`) -/

/-- Python `KeyError`-style failures fold into `PyExc.valueError` above;
`str.replace(old, new)` replaces every occurrence, with the source-list
length as structural fuel (one character is consumed per step, so the fuel
is never exhausted; `pat` is nonempty at every call site). -/
def replaceAllGo (pat rep : List Char) : Nat → List Char → List Char
  | _, [] => []
  | 0, hay => hay
  | fuel + 1, c :: cs =>
      if charsStartWith pat (c :: cs) then rep ++ replaceAllGo pat rep fuel ((c :: cs).drop pat.length)
      else c :: replaceAllGo pat rep fuel cs

/-- Python `str.replace`. -/
def str_replace (s pat rep : String) : String :=
  String.mk (replaceAllGo pat.data rep.data s.data.length s.data)

/-- `os.path.basename`: the part after the last slash. -/
def os_path_basename (p : String) : String :=
  String.mk ((p.data.reverse.takeWhile (fun c => c ≠ '/')).reverse)

/-- Extension of a path (with the dot), empty when the basename has none —
`os.path.splitext(..)[1]`. Callers lowercase only via already-lowercase
constants, so no case folding is needed here. -/
def path_extension (p : String) : String :=
  let base := (os_path_basename p).data
  if base.contains '.' then String.mk ('.' :: (base.reverse.takeWhile (fun c => c ≠ '.')).reverse)
  else ""

/-- Sort strings as Python `sorted` does. -/
def sortedStr (l : List String) : List String := List.insertionSort strLeP l

/-- Write (or overwrite) one file. -/
def fs_write (fs : FS) (p : String) (fc : FileContent) : FS := dict_set fs p fc

/-- One indentation step of `json.dump(..., indent=2)`. -/
def indentChars (level : Nat) : List Char := List.replicate (2 * level) ' '

mutual
/-- `json.dump(value, f, indent=2)` text (default item/key separators with
an indent, i.e. `",\n"` and `": "`). Only written, never re-read by any
modelled code path — readers consume the `parsed` field. -/
def serializeIndent : Nat → Json → List Char
  | _, .null => ['n', 'u', 'l', 'l']
  | _, .bool b => if b then ['t', 'r', 'u', 'e'] else ['f', 'a', 'l', 's', 'e']
  | _, .num n => (toString n).data
  | _, .str s => jsonQuote s
  | _, .arr .nil => ['[', ']']
  | level, .arr (.cons hd tl) =>
      '[' :: '\n' :: indentChars (level + 1) ++
        serializeIndentList (level + 1) (.cons hd tl) ++
        '\n' :: indentChars level ++ [']']
  | _, .obj .nil => [lbrace, rbrace]
  | level, .obj (.cons k v tl) =>
      lbrace :: '\n' :: indentChars (level + 1) ++
        serializeIndentFields (level + 1) (.cons k v tl) ++
        '\n' :: indentChars level ++ [rbrace]
def serializeIndentList : Nat → JsonList → List Char
  | _, .nil => []
  | level, .cons hd .nil => serializeIndent level hd
  | level, .cons hd (.cons hd2 tl) =>
      serializeIndent level hd ++ ',' :: '\n' :: indentChars level ++
        serializeIndentList level (.cons hd2 tl)
def serializeIndentFields : Nat → JsonFields → List Char
  | _, .nil => []
  | level, .cons k v .nil => jsonQuote k ++ ':' :: ' ' :: serializeIndent level v
  | level, .cons k v (.cons k2 v2 tl) =>
      (jsonQuote k ++ ':' :: ' ' :: serializeIndent level v) ++ ',' :: '\n' :: indentChars level ++
        serializeIndentFields level (.cons k2 v2 tl)
end

/-- The file a `json.dump(props, f, indent=2); f.write("\n")` call leaves on
disk: its text, and the tree `json.load` recovers from it. -/
def fileOfJson (j : Json) : FileContent :=
  ⟨String.mk (serializeIndent 0 j) ++ "\n", some j, none⟩

/-- Python `(d.get("swagger") or "").startswith("2")` — `AttributeError`
when the truthy value is not a string. -/
def swaggerIs2 (v : Option Json) : Except PyExc Bool :=
  let w := match v with
    | some j => if pyTruthy j then j else .str ""
    | none => .str ""
  match w with
  | .str s => .ok (charsStartWith "2".data s.data)
  | _ => .error .attributeError

/-- `apis._detect_spec_format`: file type from extension, OpenAPI major
version sniffed from the parsed document. -/
def detect_spec_format (fs : FS) (spec_path : String) : Except PyExc (String × String) :=
  let ext := path_extension spec_path
  let content := ((fs_lookup fs spec_path).map (fun fc => fc.text)).getD ""
  if ext = ".wsdl" then .ok ("wsdl", content)
  else if ext = ".wadl" then .ok ("wadl", content)
  else if ext = ".graphql" then .ok ("graphql", content)
  else if ext = ".yaml" ∨ ext = ".yml" then
    match (fs_lookup fs spec_path).bind (fun fc => fc.parsedYaml) with
    | none => .ok ("openapi", content)
    | some parsed =>
        if pyTruthy parsed then
          match parsed with
          | .obj pf =>
              match swaggerIs2 (fieldsGet pf "swagger") with
              | .ok true => .ok ("swagger-link-json", content)
              | .ok false => .ok ("openapi", content)
              | .error e => .error e
          | _ => .error .attributeError
        else .ok ("openapi", content)
  else
    match (fs_lookup fs spec_path).bind (fun fc => fc.parsed) with
    | none => .ok ("openapi+json", content)
    | some parsed =>
        if pyTruthy parsed then
          match parsed with
          | .obj pf =>
              match swaggerIs2 (fieldsGet pf "swagger") with
              | .ok true => .ok ("swagger-json", content)
              | .ok false => .ok ("openapi+json", content)
              | .error e => .error e
          | _ => .error .attributeError
        else .ok ("openapi+json", content)

/-- `apis._find_spec_file`: the first of the six candidate names present. -/
def find_spec_file (fs : FS) (api_dir : String) : Option String :=
  (["specification.json", "specification.yaml", "specification.yml",
    "specification.wsdl", "specification.wadl", "specification.graphql"].map
      (fun name => os_path_join api_dir name)).find? (fun p => fs_isfile fs p)

/-- Reserved file names of the legacy API directory layout. -/
def reservedApiFiles : List String := ["apiInformation.json", "configuration.json", "tags.json"]

/-- Old-format operation scan of `apis._read_operations`: each remaining
`*.json` object file in the API directory is one operation. -/
def read_operations_old (fs : FS) (api_dir : String) :
    List String → JsonFields → Except PyExc JsonFields
  | [], ops => .ok ops
  | entry :: rest, ops =>
      if !(charsStartWith ".json".data.reverse entry.data.reverse) then
        read_operations_old fs api_dir rest ops
      else if reservedApiFiles.contains entry then
        read_operations_old fs api_dir rest ops
      else if charsStartWith "specification.".data entry.data then
        read_operations_old fs api_dir rest ops
      else if !(fs_isfile fs (os_path_join api_dir entry)) then
        read_operations_old fs api_dir rest ops
      else
        match read_json fs (os_path_join api_dir entry) with
        | .error e => .error e
        | .ok op_props0 =>
            match op_props0 with
            | .obj _ =>
                match resolve_refs fs api_dir op_props0 with
                | .error e => .error e
                | .ok op_props =>
                    match op_props with
                    | .obj opf =>
                        let idJson := (fieldsGet opf "id").getD
                          (.str (str_replace entry ".json" ""))
                        match idJson with
                        | .str idStr =>
                            read_operations_old fs api_dir rest
                              (fieldsSet ops (extract_id_from_path idStr) op_props)
                        | _ => .error .attributeError
                    | _ => .error .attributeError
            | _ => read_operations_old fs api_dir rest ops

/-- New-format operation scan: `operations/<opId>/` directories. -/
def read_operations_new (fs : FS) (api_dir ops_dir : String) :
    List String → JsonFields → JsonFields
  | [], ops => ops
  | entry :: rest, ops =>
      if fs_isdir fs (os_path_join ops_dir entry) then
        read_operations_new fs api_dir ops_dir rest
          (fieldsSet ops entry
            (.obj (.cons "id"
              (.str ("/apis/" ++ os_path_basename api_dir ++ "/operations/" ++ entry)) .nil)))
      else read_operations_new fs api_dir ops_dir rest ops

/-- `apis._read_operations`. -/
def read_operations (fs : FS) (api_dir : String) : Except PyExc JsonFields :=
  let ops_dir := os_path_join api_dir "operations"
  if fs_isdir fs ops_dir then
    .ok (read_operations_new fs api_dir ops_dir (sortedStr (fs_listdir fs ops_dir)) .nil)
  else
    read_operations_old fs api_dir (sortedStr (fs_listdir fs api_dir)) .nil

/-- The composite hashable view `{"apiInfo": .., "spec": .., "operations": ..}`
of an API artifact (the atomic unit). -/
def apiComposite (props : Json) (spec_data : Option Json) (operations : JsonFields) : Json :=
  .obj (.cons "apiInfo" props
    (.cons "spec" (spec_data.getD .null)
      (.cons "operations" (.obj operations) .nil)))

/-- Per-API body of `apis.read_local`. -/
def read_local_apis_go (fs : FS) (base : String) :
    List String → List (String × Artifact) → Except PyExc (List (String × Artifact))
  | [], artifacts => .ok artifacts
  | entry :: rest, artifacts =>
      let api_dir := os_path_join base entry
      if !(fs_isdir fs api_dir) then read_local_apis_go fs base rest artifacts
      else
        let info_path :=
          if fs_isfile fs (os_path_join api_dir "apiInformation.json") then
            some (os_path_join api_dir "apiInformation.json")
          else if fs_isfile fs (os_path_join api_dir "configuration.json") then
            some (os_path_join api_dir "configuration.json")
          else none
        match info_path with
        | none => read_local_apis_go fs base rest artifacts
        | some ip =>
            match read_json fs ip with
            | .error e => .error e
            | .ok props0 =>
                match resolve_refs fs api_dir props0 with
                | .error e => .error e
                | .ok props =>
                    match props with
                    | .obj pf =>
                        let idJson := (fieldsGet pf "id").getD (.str entry)
                        match idJson with
                        | .str idStr =>
                            let api_id := extract_id_from_path idStr
                            let specE : Except PyExc (Option Json) :=
                              match find_spec_file fs api_dir with
                              | none => .ok none
                              | some sp =>
                                  match detect_spec_format fs sp with
                                  | .error e => .error e
                                  | .ok (fmt, content) =>
                                      .ok (some (.obj (.cons "format" (.str fmt)
                                        (.cons "content" (.str content)
                                          (.cons "path" (.str (os_path_basename sp)) .nil)))))
                            match specE with
                            | .error e => .error e
                            | .ok spec_data =>
                                match read_operations fs api_dir with
                                | .error e => .error e
                                | .ok operations =>
                                    let composite := apiComposite props spec_data operations
                                    read_local_apis_go fs base rest
                                      (dict_set artifacts ("api:" ++ api_id)
                                        ⟨"api", api_id, compute_hash composite, props,
                                         spec_data, operations⟩)
                        | _ => .error .attributeError
                    | _ => .error .attributeError

/-- `apis.read_local`. -/
def read_local_apis (fs : FS) (source_dir : String) : Except PyExc (List (String × Artifact)) :=
  let base := os_path_join source_dir "apis"
  if !(fs_isdir fs base) then .ok []
  else read_local_apis_go fs base (sortedStr (fs_listdir fs base)) []

/-- An item of a paginated REST listing: `{"name": .., "properties": {..}}`. -/
structure LiveItem where
  name : String
  properties : Option Json := none

/-- The slice of `ApimClient` that `apis.read_live` consumes: the `/apis`
listing and the per-API `/apis/<id>/operations` listing, each either a value
or a raised exception. -/
structure LiveApisClient where
  apis : Except PyExc (List LiveItem)
  operations : String → Except PyExc (List LiveItem)

def liveOperationsFields : List LiveItem → JsonFields → JsonFields
  | [], ops => ops
  | op :: rest, ops => liveOperationsFields rest (fieldsSet ops op.name (op.properties.getD (.obj .nil)))

def read_live_apis_go (client : LiveApisClient) :
    List LiveItem → List (String × Artifact) → List (String × Artifact)
  | [], artifacts => artifacts
  | item :: rest, artifacts =>
      let props := item.properties.getD (.obj .nil)
      let operations :=
        match client.operations item.name with
        | .ok ops => liveOperationsFields ops .nil
        | .error _ => .nil
      let composite := apiComposite props none operations
      read_live_apis_go client rest
        (dict_set artifacts ("api:" ++ item.name)
          ⟨"api", item.name, compute_hash composite, props, none, operations⟩)

/-- `apis.read_live`: enumerate `/apis`, fetch each API's operations
(swallowing any error there), hash the composite with `spec = None`. -/
def read_live_apis (client : LiveApisClient) : Except PyExc (List (String × Artifact)) :=
  match client.apis with
  | .error e => .error e
  | .ok items => .ok (read_live_apis_go client items [])

/-- Operation files written by `apis.write_local` (old format: one
`<opId>.json` beside `apiInformation.json`, with the `id` path injected). -/
def write_ops_files (api_dir api_id : String) : JsonFields → FS → Except PyExc FS
  | .nil, fs => .ok fs
  | .cons op_id op_props tl, fs =>
      match op_props with
      | .obj opf =>
          let out := fieldsSet opf "id" (.str ("/apis/" ++ api_id ++ "/operations/" ++ op_id))
          write_ops_files api_dir api_id tl
            (fs_write fs (os_path_join api_dir (op_id ++ ".json")) (fileOfJson (.obj out)))
      | _ => .error .typeError

/-- `apis.write_local`: one directory per API named `<displayName>_<id>`
(path separators sanitized to underscores, plain `<id>` when the display
name equals the id), with `apiInformation.json` carrying the properties plus
the injected `id` path, and one JSON file per operation. -/
def write_local_apis_go (base : String) : List (String × Artifact) → FS → Except PyExc FS
  | [], fs => .ok fs
  | (_, a) :: rest, fs =>
      match a.properties with
      | .obj pf =>
          let dir_name :=
            match fieldsGet pf "displayName" with
            | some (.str s) => if s ≠ a.id then s ++ "_" ++ a.id else a.id
            | some j => pyToStr j ++ "_" ++ a.id
            | none => a.id
          let dir_name := str_replace (str_replace dir_name "/" "_") "\\" "_"
          let api_dir := os_path_join base dir_name
          let props2 := fieldsSet pf "id" (.str ("/apis/" ++ a.id))
          let fs1 := fs_write fs (os_path_join api_dir "apiInformation.json")
            (fileOfJson (.obj props2))
          match write_ops_files api_dir a.id a.operations fs1 with
          | .error e => .error e
          | .ok fs2 => write_local_apis_go base rest fs2
      | _ => .error .attributeError

/-- `apis.write_local` over an initially empty output tree. -/
def write_local_apis (output_dir : String) (artifacts : List (String × Artifact)) :
    Except PyExc FS :=
  write_local_apis_go (os_path_join output_dir "apis") artifacts []

/-- `apis.to_operation_payloads`: one `{"properties": ...}` body per
operation, with the engine `id` stripped. -/
def to_operation_payloads (a : Artifact) : Except PyExc (List (String × Json)) :=
  to_operation_payloads_go a.operations
where
  to_operation_payloads_go : JsonFields → Except PyExc (List (String × Json))
    | .nil => .ok []
    | .cons op_id op_props tl =>
        match op_props with
        | .obj opf =>
            match to_operation_payloads_go tl with
            | .ok rest => .ok ((op_id, .obj (.cons "properties" (.obj (fieldsPop opf "id")) .nil)) :: rest)
            | .error e => .error e
        | _ => .error .typeError

/-- `apis.to_rest_payload`: properties minus `id` under a `properties` key,
with the spec import fields injected when a spec is present. -/
def to_rest_payload_apis (a : Artifact) : Except PyExc Json :=
  match a.properties with
  | .obj pf =>
      let props := fieldsPop pf "id"
      match a.spec with
      | some spec =>
          if pyTruthy spec then
            match spec with
            | .obj sf =>
                match fieldsGet sf "format", fieldsGet sf "content" with
                | some fmt, some content =>
                    .ok (.obj (.cons "properties"
                      (.obj (fieldsSet (fieldsSet props "format" fmt) "value" content)) .nil))
                | _, _ => .error .valueError
            | _ => .error .typeError
          else .ok (.obj (.cons "properties" (.obj props) .nil))
      | none => .ok (.obj (.cons "properties" (.obj props) .nil))
  | _ => .error .attributeError

def resource_path_apis (artifact_id : String) : String := "/apis/" ++ artifact_id

/-! ## The applier (`applier.py`) -/

/-- A REST mutation issued by the applier. -/
inductive RestOp where
  | put (path : String) (body : Json) : RestOp
  | delete (path : String) : RestOp

/-- The per-kind interface slice the applier consumes from a registry module
(`ARTIFACT_TYPES[type]`). -/
structure ModOps where
  resource_path : String → String
  to_rest_payload : Artifact → Except PyExc Json

/-- The kind registry, as the applier sees it. -/
abbrev Registry := String → ModOps

/-- Outcome of one enveloped REST request (`ApimClient.put` / the inner
`_request` of `delete`), indexed by a global call counter so every call can
behave differently. An `ok` carries no body — the applier discards response
bodies. -/
abbrev RestOracle := Nat → RestOp → Except PyExc Unit

/-- The artifact record `_update_state` stores: exactly the four fields
`type`, `id`, `hash`, `properties` (never `spec`/`operations`). -/
structure StateArtifact where
  type : String
  id : String
  hash : String
  properties : Json

/-- The mutable state dict: target coordinates are irrelevant to the claims;
`artifacts` and `last_applied` are what the applier touches. -/
structure ApplyState where
  artifacts : List (String × StateArtifact)
  last_applied : Option String

/-- An observable effect of the applier, in program order: a REST call, or a
`backend.write(state)` with the state content written. -/
inductive Event where
  | rest (op : RestOp) : Event
  | store_write (artifacts : List (String × StateArtifact)) (last_applied : Option String) : Event

/-- `applier._update_state`: add or replace the entry on CREATE/UPDATE,
remove it on DELETE. (The `none` fallback is unreachable: the applier calls
this only after `_apply_change` succeeded, which required the artifact.) -/
def update_state (c : Change) (arts : List (String × StateArtifact)) :
    List (String × StateArtifact) :=
  if c.action == CREATE || c.action == UPDATE then
    match c.new with
    | some a => dict_set arts c.key ⟨a.type, a.id, a.hash, a.properties⟩
    | none => arts
  else if c.action == DELETE then dict_pop arts c.key
  else arts

/-- The operation PUTs that follow a successful API PUT
(`for op_id, op_payload in to_operation_payloads(artifact): client.put(...)`). -/
def run_op_puts (oracle : RestOracle) (api_id : String) :
    List (String × Json) → List Event → Nat → List Event × Nat × Option PyExc
  | [], evs, n => (evs, n, none)
  | (op_id, payload) :: rest, evs, n =>
      let op := RestOp.put ("/apis/" ++ api_id ++ "/operations/" ++ op_id) payload
      match oracle n op with
      | .ok _ => run_op_puts oracle api_id rest (evs ++ [.rest op]) (n + 1)
      | .error e => (evs ++ [.rest op], n + 1, some e)

/-- `applier._apply_change` for one change: the REST calls it issues (in
order), the advanced call counter, and the exception that interrupted it, if
any. A DELETE whose enveloped request raises `ApimNotFoundError` succeeds
(the swallow sits in `ApimClient.delete`). -/
def exec_change (mods : Registry) (oracle : RestOracle) (n : Nat) (c : Change) :
    List Event × Nat × Option PyExc :=
  if c.action == CREATE || c.action == UPDATE then
    match c.new with
    | none => ([], n, some .typeError)
    | some a =>
        let path := (mods c.type).resource_path a.id
        match (mods c.type).to_rest_payload a with
        | .error e => ([], n, some e)
        | .ok payload =>
            let op := RestOp.put path payload
            match oracle n op with
            | .error e => ([.rest op], n + 1, some e)
            | .ok _ =>
                if c.type == "api" then
                  match to_operation_payloads a with
                  | .error e => ([.rest op], n + 1, some e)
                  | .ok pairs => run_op_puts oracle a.id pairs [.rest op] (n + 1)
                else ([.rest op], n + 1, none)
  else if c.action == DELETE then
    match c.old with
    | none => ([], n, some .typeError)
    | some a =>
        let op := RestOp.delete ((mods c.type).resource_path a.id)
        match oracle n op with
        | .ok _ => ([.rest op], n + 1, none)
        | .error (.apim e) =>
            if e.cls = .notFound then ([.rest op], n + 1, none)
            else ([.rest op], n + 1, some (.apim e))
        | .error e => ([.rest op], n + 1, some e)
  else ([], n, none)

/-- `applier._format_error_message`. -/
def format_error_message (context : String) (e : ApimExc) : String :=
  let msg := context ++ ": " ++ e.message
  let msg := match e.error_code with
    | some c => if pyTruthy c then msg ++ " [" ++ pyToStr c ++ "]" else msg
    | none => msg
  match e.request_id with
  | some rid => if rid ≠ "" then msg ++ " (req-id: " ++ rid ++ ")" else msg
  | none => msg

/-- Python `str(exc)` for the unclassified exceptions the generic
`except Exception` branch reports (the text is presentation only). -/
def py_exc_message : PyExc → String
  | .apim a => a.message
  | .typeError => "TypeError"
  | .attributeError => "AttributeError"
  | .valueError => "ValueError"

/-- The error string the applier returns for the exception that stopped it:
the transient / permanent branches run `_format_error_message`, everything
else is reported with `str(e)`. -/
def error_message_for : PyExc → String
  | .apim a =>
      if isTransientCls a.cls then format_error_message "Transient error (exhausted retries)" a
      else if isPermanentCls a.cls then format_error_message "Permanent error" a
      else a.message
  | e => py_exc_message e

/-- The applier's main loop over the ordered changes: on success mutate
`state.artifacts` and `backend.write(state)` before touching the next
change; on any exception stop and report. After the loop, stamp
`last_applied = now` and write once more. -/
def apply_go (mods : Registry) (oracle : RestOracle) (now : String) :
    List Change → ApplyState → Nat → Nat → (Nat × Option String) × List Event × ApplyState
  | [], st, _, succ =>
      let st2 : ApplyState := ⟨st.artifacts, some now⟩
      ((succ, none), [.store_write st2.artifacts st2.last_applied], st2)
  | c :: rest, st, n, succ =>
      match exec_change mods oracle n c with
      | (evs, _, some e) => ((succ, some (error_message_for e)), evs, st)
      | (evs, n2, none) =>
          let st2 : ApplyState := ⟨update_state c st.artifacts, st.last_applied⟩
          match apply_go mods oracle now rest st2 n2 (succ + 1) with
          | ((succ3, msg), evs3, st3) =>
              ((succ3, msg), evs ++ .store_write st2.artifacts st2.last_applied :: evs3, st3)

/-- `applier.apply_plan` in normal mode: filter the plan to the actionable
changes, order them, and walk the loop. Returns `(succeeded, total, error?)`
along with the event trace and the final state. -/
def apply_plan (mods : Registry) (oracle : RestOracle) (now : String)
    (plan_changes : List Change) (st : ApplyState) :
    (Nat × Nat × Option String) × List Event × ApplyState :=
  let changes := plan_changes.filter
    (fun c => c.action == CREATE || c.action == UPDATE || c.action == DELETE)
  if changes.isEmpty then ((0, 0, none), [], st)
  else
    let ordered := order_changes changes
    match apply_go mods oracle now ordered st 0 0 with
    | ((succ, msg), evs, st2) => ((succ, ordered.length, msg), evs, st2)

/-- Concatenation of field lists (used to state that the resolver's dict
building appends fresh keys in order). -/
def fieldsApp : JsonFields → JsonFields → JsonFields
  | .nil, g => g
  | .cons k v tl, g => .cons k v (fieldsApp tl g)

/-- Folding `_update_state` over a list of changes: the artifacts dict after
applying those changes in order. -/
def apply_fold (cs : List Change) (arts : List (String × StateArtifact)) :
    List (String × StateArtifact) :=
  cs.foldl (fun a c => update_state c a) arts

/-- Whether an observable applier event is a REST call (as opposed to a
state-store write). -/
def isRestEvent : Event → Bool
  | .rest _ => true
  | .store_write _ _ => false

/-- The ordered actionable changes `apply_plan` walks: the plan filtered to
CREATE/UPDATE/DELETE, passed through `order_changes`. -/
def ordered_changes (plan_changes : List Change) : List Change :=
  order_changes (plan_changes.filter
    (fun c => c.action == CREATE || c.action == UPDATE || c.action == DELETE))

mutual
/-- Node-count size of a JSON tree, used as a termination measure for
proofs about the mutually recursive resolver. -/
def jsonSize : Json → Nat
  | .obj fields => fieldsSize fields + 1
  | .arr items => listSize items + 1
  | _ => 1
def fieldsSize : JsonFields → Nat
  | .nil => 0
  | .cons _ v tl => jsonSize v + fieldsSize tl + 1
def listSize : JsonList → Nat
  | .nil => 0
  | .cons hd tl => jsonSize hd + listSize tl + 1
end

/-! ## Theorems -/

theorem lexLe_trans {a b c : List Char} (h1 : lexLe a b = true) (h2 : lexLe b c = true) :
    lexLe a c = true := by
  induction a generalizing b c with
  | nil => simp [lexLe]
  | cons x xs ih =>
    cases b with
    | nil => simp [lexLe] at h1
    | cons y ys =>
      cases c with
      | nil => simp [lexLe] at h2
      | cons z zs =>
        simp only [lexLe] at h1 h2 ⊢
        by_cases hxy : x = y
        · subst hxy
          by_cases hyz : x = z
          · subst hyz
            simp at h1 h2 ⊢
            exact ih h1 h2
          · simp [hyz] at h2 ⊢
            exact h2
        · by_cases hyz : y = z
          · subst hyz
            simp [hxy] at h1 ⊢
            exact h1
          · simp [hxy, hyz] at h1 h2
            have hxz : x < z := lt_trans h1 h2
            simp [ne_of_lt hxz, hxz]

theorem lexLe_total (a b : List Char) : lexLe a b = true ∨ lexLe b a = true := by
  induction a generalizing b with
  | nil => simp [lexLe]
  | cons x xs ih =>
    cases b with
    | nil => simp [lexLe]
    | cons y ys =>
      simp only [lexLe]
      by_cases hxy : x = y
      · subst hxy
        simp
        exact ih ys
      · rcases lt_or_gt_of_ne hxy with h | h
        · left
          simp [hxy, h]
        · right
          have hyx : ¬y = x := fun e => hxy e.symm
          simp [hyx, h]

instance : IsTrans String strLeP := ⟨fun _ _ _ h1 h2 => lexLe_trans h1 h2⟩

instance : IsTotal String strLeP := ⟨fun a b => lexLe_total a.data b.data⟩

instance : IsTrans Change cuLe := ⟨fun _ _ _ h1 h2 => Nat.le_trans h1 h2⟩

instance : IsTotal Change cuLe := ⟨fun a b => Nat.le_total (type_order a.type) (type_order b.type)⟩

instance : IsTrans Change delLe := ⟨fun _ _ _ h1 h2 => Nat.le_trans h2 h1⟩

instance : IsTotal Change delLe := ⟨fun a b => Nat.le_total (type_order b.type) (type_order a.type)⟩

theorem hexChar_mem_digits (n : Nat) : hexChar n ∈ hexDigitsList := by
  unfold hexChar
  split <;> decide

theorem sha256_length (msg : List Nat) : (sha256 msg).length = 32 := by
  simp [sha256, word4]

theorem hexOfBytes_length (bs : List Nat) : (hexOfBytes bs).length = 2 * bs.length := by
  induction bs with
  | nil => simp [hexOfBytes]
  | cons b tl ih =>
      simp [hexOfBytes] at ih ⊢
      omega

theorem hexOfBytes_mem {c : Char} {bs : List Nat} (h : c ∈ hexOfBytes bs) :
    c ∈ hexDigitsList := by
  simp only [hexOfBytes, List.mem_flatMap] at h
  obtain ⟨b, _, hc⟩ := h
  simp at hc
  rcases hc with rfl | rfl <;> exact hexChar_mem_digits _

theorem compute_hash_data (t : Json) :
    (compute_hash t).data =
      "sha256:".data ++ hexOfBytes (sha256 (utf8Encode (serializeJson (jsonNormalize t)))) := by
  rfl

/-- Claim C2 — `compute_hash` returns `"sha256:"` followed by 64 (lowercase)
hex digits for every JSON-like tree, and semantically-equal trees — in
particular trees differing only in the order of mapping keys at any nesting
depth — receive equal digests. -/
theorem hash_contract :
    (∀ t : Json,
        (compute_hash t).data.take 7 = "sha256:".data ∧
        ((compute_hash t).data.drop 7).length = 64 ∧
        ∀ c ∈ (compute_hash t).data.drop 7, c ∈ hexDigitsList) ∧
    (∀ t1 t2 : Json, semanticallyEqual t1 t2 → compute_hash t1 = compute_hash t2) := by
  constructor
  · intro t
    have hdata := compute_hash_data t
    have hlen : ("sha256:".data : List Char).length = 7 := by decide
    refine ⟨?_, ?_, ?_⟩
    · rw [hdata, ← hlen, List.take_left]
    · rw [hdata, ← hlen, List.drop_left, hexOfBytes_length, sha256_length]
    · intro c hc
      rw [hdata, ← hlen, List.drop_left] at hc
      exact hexOfBytes_mem hc
  · intro t1 t2 h
    unfold compute_hash
    rw [h]

/-- Witness for C2 at two concrete trees that differ only in member order at
two nesting depths. -/
theorem hash_contract_witness :
    semanticallyEqual
        (.obj (.cons "b" (.num 1) (.cons "a" (.obj (.cons "y" .null (.cons "x" (.bool true) .nil))) .nil)))
        (.obj (.cons "a" (.obj (.cons "x" (.bool true) (.cons "y" .null .nil))) (.cons "b" (.num 1) .nil))) ∧
    compute_hash
        (.obj (.cons "b" (.num 1) (.cons "a" (.obj (.cons "y" .null (.cons "x" (.bool true) .nil))) .nil))) =
      compute_hash
        (.obj (.cons "a" (.obj (.cons "x" (.bool true) (.cons "y" .null .nil))) (.cons "b" (.num 1) .nil))) ∧
    (compute_hash (.obj (.cons "b" (.num 1) .nil))).data.take 7 = "sha256:".data :=
  ⟨rfl, hash_contract.2 _ _ rfl, (hash_contract.1 (.obj (.cons "b" (.num 1) .nil))).1⟩

theorem dict_get_isSome {m : List (String × α)} {k : String} :
    (dict_get m k).isSome = true ↔ k ∈ m.map Prod.fst := by
  induction m with
  | nil => simp [dict_get]
  | cons p tl ih =>
      obtain ⟨k2, v⟩ := p
      by_cases h : k2 = k
      · subst h
        simp [dict_get]
      · have h2 : ¬k = k2 := Ne.symm h
        simp [dict_get, h, ih, h2]

theorem mem_sorted_keys {l s : List (String × Artifact)} {k : String} :
    k ∈ sorted_keys l s ↔ (k ∈ l.map Prod.fst ∨ k ∈ s.map Prod.fst) := by
  unfold sorted_keys
  rw [(List.perm_insertionSort strLeP _).mem_iff, List.mem_dedup, List.mem_append]

theorem sorted_keys_nodup (l s : List (String × Artifact)) : (sorted_keys l s).Nodup :=
  (List.perm_insertionSort strLeP _).symm.nodup (List.nodup_dedup _)

theorem sorted_keys_sorted (l s : List (String × Artifact)) :
    (sorted_keys l s).Pairwise strLeP :=
  List.sorted_insertionSort strLeP _

theorem filterMap_map_key {β : Type} {keyOf : β → String} {f : String → Option β}
    {ks : List String} (h : ∀ k ∈ ks, ∃ c, f k = some c ∧ keyOf c = k) :
    (ks.filterMap f).map keyOf = ks := by
  induction ks with
  | nil => simp
  | cons k tl ih =>
      obtain ⟨c, hfc, hkey⟩ := h k (List.mem_cons_self k tl)
      rw [List.filterMap_cons, hfc, List.map_cons, hkey,
          ih (fun x hx => h x (List.mem_cons_of_mem _ hx))]

/-- Claim C1 — `diff` emits exactly one change per key of
`keys(L) ∪ keys(S)`, iterating keys in lexicographic order, classifying each
key as CREATE with `new = L[k]` when only local, DELETE with `old = S[k]`
when only in state, NOOP when both hashes agree, and UPDATE with both sides
recorded when they differ. -/
theorem diff_complete_sound (l s : List (String × Artifact)) :
    ((diff l s).map (fun c => c.key) = sorted_keys l s) ∧
    (sorted_keys l s).Pairwise strLeP ∧
    (sorted_keys l s).Nodup ∧
    (∀ k, k ∈ sorted_keys l s ↔ (k ∈ l.map Prod.fst ∨ k ∈ s.map Prod.fst)) ∧
    (∀ c ∈ diff l s,
      match dict_get l c.key, dict_get s c.key with
      | some a, none => c.action = CREATE ∧ c.new = some a ∧ c.old = none
      | none, some b => c.action = DELETE ∧ c.old = some b ∧ c.new = none
      | some a, some b =>
          (a.hash ≠ b.hash → c.action = UPDATE ∧ c.old = some b ∧ c.new = some a) ∧
          (a.hash = b.hash → c.action = NOOP ∧ c.old = some b ∧ c.new = some a)
      | none, none => False) := by
  refine ⟨?_, sorted_keys_sorted l s, sorted_keys_nodup l s, fun k => mem_sorted_keys, ?_⟩
  · apply filterMap_map_key
    intro k hk
    have hmem := mem_sorted_keys.1 hk
    rcases hmem with hl | hs
    · have hsome : (dict_get l k).isSome = true := dict_get_isSome.2 hl
      rcases hgl : dict_get l k with _ | a
      · rw [hgl] at hsome
        simp at hsome
      · rcases hgs : dict_get s k with _ | b
        · exact ⟨⟨CREATE, k, a.type, a.id, none, some a⟩, by simp [hgl, hgs], rfl⟩
        · by_cases hh : a.hash ≠ b.hash
          · exact ⟨⟨UPDATE, k, a.type, a.id, some b, some a⟩, by simp [hgl, hgs, hh], rfl⟩
          · exact ⟨⟨NOOP, k, a.type, a.id, some b, some a⟩, by simp [hgl, hgs, hh], rfl⟩
    · have hsome : (dict_get s k).isSome = true := dict_get_isSome.2 hs
      rcases hgs : dict_get s k with _ | b
      · rw [hgs] at hsome
        simp at hsome
      · rcases hgl : dict_get l k with _ | a
        · exact ⟨⟨DELETE, k, b.type, b.id, some b, none⟩, by simp [hgl, hgs], rfl⟩
        · by_cases hh : a.hash ≠ b.hash
          · exact ⟨⟨UPDATE, k, a.type, a.id, some b, some a⟩, by simp [hgl, hgs, hh], rfl⟩
          · exact ⟨⟨NOOP, k, a.type, a.id, some b, some a⟩, by simp [hgl, hgs, hh], rfl⟩
  · intro c hc
    rw [diff, List.mem_filterMap] at hc
    obtain ⟨k, _, hfk⟩ := hc
    rcases hgl : dict_get l k with _ | a <;> rcases hgs : dict_get s k with _ | b <;>
      rw [hgl, hgs] at hfk
    · simp at hfk
    · simp only [Option.some.injEq] at hfk
      subst hfk
      simp [hgl, hgs]
    · simp only [Option.some.injEq] at hfk
      subst hfk
      simp [hgl, hgs]
    · by_cases hh : a.hash ≠ b.hash
      · simp only [Option.some.injEq] at hfk
        rw [if_pos hh] at hfk
        simp only [Option.some.injEq] at hfk
        subst hfk
        simp [hgl, hgs, hh]
      · simp only [Option.some.injEq] at hfk
        rw [if_neg hh] at hfk
        simp only [Option.some.injEq] at hfk
        subst hfk
        simp [hgl, hgs, hh]

theorem orderedInsert_filter_of_all {r : α → α → Prop} [DecidableRel r] {p : α → Bool} {x : α}
    (hx : p x = true) (hall : ∀ y, p y = true → r x y) (l : List α) :
    (List.orderedInsert r x l).filter p = x :: l.filter p := by
  induction l with
  | nil => simp [List.orderedInsert, hx]
  | cons y ys ih =>
      by_cases hr : r x y
      · simp [List.orderedInsert, hr, hx]
      · have hy : p y = false := by
          rcases hpy : p y with _ | _
          · rfl
          · exact absurd (hall y hpy) hr
        simp [List.orderedInsert, hr, hy, ih]

theorem orderedInsert_filter_of_neg {r : α → α → Prop} [DecidableRel r] {p : α → Bool} {x : α}
    (hx : p x = false) (l : List α) :
    (List.orderedInsert r x l).filter p = l.filter p := by
  induction l with
  | nil => simp [List.orderedInsert, hx]
  | cons y ys ih =>
      by_cases hr : r x y
      · simp [List.orderedInsert, hr, hx]
      · rcases hy : p y with _ | _ <;> simp [List.orderedInsert, hr, hy, ih]

theorem insertionSort_filter_eq {r : α → α → Prop} [DecidableRel r] {p : α → Bool}
    (hp : ∀ x y, p x = true → p y = true → r x y) (l : List α) :
    (l.insertionSort r).filter p = l.filter p := by
  induction l with
  | nil => rfl
  | cons x xs ih =>
      rcases hx : p x with _ | _
      · rw [List.insertionSort, orderedInsert_filter_of_neg hx, ih, List.filter_cons_of_neg]
        simp [hx]
      · rw [List.insertionSort, orderedInsert_filter_of_all hx (fun y hy => hp x y hx hy), ih,
            List.filter_cons_of_pos]
        simp [hx]

theorem band_true_parts {a b : Bool} (h : (a && b) = true) : a = true ∧ b = true := by
  simp only [Bool.and_eq_true] at h
  exact h

theorem isCreateOrUpdate_action {c : Change} (h : isCreateOrUpdate c = true) :
    c.action = CREATE ∨ c.action = UPDATE := by
  simp only [isCreateOrUpdate, Bool.or_eq_true, beq_iff_eq] at h
  exact h

theorem isCreateOrUpdate_ne_delete {c : Change} (h : isCreateOrUpdate c = true) :
    c.action ≠ DELETE := by
  rcases isCreateOrUpdate_action h with h2 | h2 <;> rw [h2] <;> decide

theorem delete_not_isCreateOrUpdate {c : Change} (h : c.action = DELETE) :
    isCreateOrUpdate c = false := by
  simp [isCreateOrUpdate, h, CREATE, UPDATE, DELETE]

/-- Claim C3 — in `order_changes changes`: no NOOP survives; every
CREATE/UPDATE precedes every DELETE; CREATE/UPDATEs are sorted in forward
registry order and DELETEs in reverse registry order; and within one kind
(on either side of the partition) the input's relative order — lexicographic
key order for diff-produced input — is preserved, stated as filter
equality. -/
theorem order_changes_spec (changes : List Change) :
    (∀ c ∈ order_changes changes, c.action ≠ NOOP) ∧
    (∀ (i j : Nat) (hi : i < (order_changes changes).length)
        (hj : j < (order_changes changes).length),
        ((order_changes changes).get ⟨i, hi⟩).action = DELETE →
        isCreateOrUpdate ((order_changes changes).get ⟨j, hj⟩) = true → j < i) ∧
    (∀ (i j : Nat) (hi : i < (order_changes changes).length)
        (hj : j < (order_changes changes).length), i ≤ j →
        isCreateOrUpdate ((order_changes changes).get ⟨i, hi⟩) = true →
        isCreateOrUpdate ((order_changes changes).get ⟨j, hj⟩) = true →
        type_order ((order_changes changes).get ⟨i, hi⟩).type ≤
          type_order ((order_changes changes).get ⟨j, hj⟩).type) ∧
    (∀ (i j : Nat) (hi : i < (order_changes changes).length)
        (hj : j < (order_changes changes).length), i ≤ j →
        ((order_changes changes).get ⟨i, hi⟩).action = DELETE →
        ((order_changes changes).get ⟨j, hj⟩).action = DELETE →
        type_order ((order_changes changes).get ⟨j, hj⟩).type ≤
          type_order ((order_changes changes).get ⟨i, hi⟩).type) ∧
    (∀ t, (order_changes changes).filter (fun c => isCreateOrUpdate c && c.type == t) =
          changes.filter (fun c => isCreateOrUpdate c && c.type == t)) ∧
    (∀ t, (order_changes changes).filter (fun c => isDeleteChange c && c.type == t) =
          changes.filter (fun c => isDeleteChange c && c.type == t)) := by
  have hout : order_changes changes =
      (changes.filter isCreateOrUpdate).insertionSort cuLe ++
      (changes.filter isDeleteChange).insertionSort delLe := rfl
  set A := (changes.filter isCreateOrUpdate).insertionSort cuLe with hAdef
  set B := (changes.filter isDeleteChange).insertionSort delLe with hBdef
  have hA : ∀ c ∈ A, isCreateOrUpdate c = true := fun c hc =>
    List.of_mem_filter ((List.perm_insertionSort cuLe _).subset hc)
  have hB : ∀ c ∈ B, c.action = DELETE := by
    intro c hc
    have h := List.of_mem_filter ((List.perm_insertionSort delLe _).subset hc)
    simpa [isDeleteChange] using h
  have sortedA : A.Sorted cuLe := List.sorted_insertionSort cuLe _
  have sortedB : B.Sorted delLe := List.sorted_insertionSort delLe _
  -- positions: a CREATE/UPDATE element lives in the A prefix, a DELETE in B
  have posCU : ∀ (i : Nat) (hi : i < (A ++ B).length),
      isCreateOrUpdate ((A ++ B).get ⟨i, hi⟩) = true → i < A.length := by
    intro i hi h
    by_contra hge
    push_neg at hge
    have hiB : i - A.length < B.length := by
      have := hi
      simp [List.length_append] at this
      omega
    have : (A ++ B).get ⟨i, hi⟩ = B.get ⟨i - A.length, hiB⟩ := by
      simp [List.get_eq_getElem, List.getElem_append_right hge]
    rw [this] at h
    exact isCreateOrUpdate_ne_delete h (hB _ (List.get_mem _ _ _))
  have posD : ∀ (i : Nat) (hi : i < (A ++ B).length),
      ((A ++ B).get ⟨i, hi⟩).action = DELETE → A.length ≤ i := by
    intro i hi h
    by_contra hlt
    push_neg at hlt
    have : (A ++ B).get ⟨i, hi⟩ = A.get ⟨i, hlt⟩ := by
      simp [List.get_eq_getElem, List.getElem_append_left hlt]
    rw [this] at h
    exact isCreateOrUpdate_ne_delete (hA _ (List.get_mem _ _ _)) h
  refine ⟨?_, ?_, ?_, ?_, ?_, ?_⟩
  · -- no NOOP in the output
    intro c hc
    rw [hout] at hc
    rcases List.mem_append.1 hc with hc | hc
    · rcases isCreateOrUpdate_action (hA c hc) with h | h <;> rw [h] <;> decide
    · rw [hB c hc]
      decide
  · -- every CREATE/UPDATE precedes every DELETE
    intro i j hi hj hdel hcu
    have h1 := posD i hi hdel
    have h2 := posCU j hj hcu
    omega
  · -- CREATE/UPDATEs sorted in forward registry order
    intro i j hi hj hij hcui hcuj
    have hiA := posCU i hi hcui
    have hjA := posCU j hj hcuj
    show type_order ((A ++ B).get ⟨i, hi⟩).type ≤ type_order ((A ++ B).get ⟨j, hj⟩).type
    have egi : (A ++ B).get ⟨i, hi⟩ = A.get ⟨i, hiA⟩ := by
      simp [List.get_eq_getElem, List.getElem_append_left hiA]
    have egj : (A ++ B).get ⟨j, hj⟩ = A.get ⟨j, hjA⟩ := by
      simp [List.get_eq_getElem, List.getElem_append_left hjA]
    rw [egi, egj]
    rcases Nat.lt_or_ge i j with hlt | hge
    · exact List.pairwise_iff_get.1 sortedA ⟨i, hiA⟩ ⟨j, hjA⟩ hlt
    · have : i = j := by omega
      subst this
      exact Nat.le_refl _
  · -- DELETEs sorted in reverse registry order
    intro i j hi hj hij hdi hdj
    have hiB := posD i hi hdi
    have hjB := posD j hj hdj
    show type_order ((A ++ B).get ⟨j, hj⟩).type ≤ type_order ((A ++ B).get ⟨i, hi⟩).type
    have hlen : (order_changes changes).length = A.length + B.length := by
      rw [hout, List.length_append]
    have hi2 := hi
    have hj2 := hj
    rw [hlen] at hi2 hj2
    have hiB2 : i - A.length < B.length := by omega
    have hjB2 : j - A.length < B.length := by omega
    have egi : (A ++ B).get ⟨i, hi⟩ = B.get ⟨i - A.length, hiB2⟩ := by
      simp [List.get_eq_getElem, List.getElem_append_right hiB]
    have egj : (A ++ B).get ⟨j, hj⟩ = B.get ⟨j - A.length, hjB2⟩ := by
      simp [List.get_eq_getElem, List.getElem_append_right hjB]
    rw [egi, egj]
    rcases Nat.lt_or_ge (i - A.length) (j - A.length) with hlt | hge
    · exact List.pairwise_iff_get.1 sortedB ⟨i - A.length, hiB2⟩ ⟨j - A.length, hjB2⟩ hlt
    · have heq : i - A.length = j - A.length := by omega
      have heq2 : (⟨i - A.length, hiB2⟩ : Fin B.length) = ⟨j - A.length, hjB2⟩ := Fin.ext heq
      rw [heq2]
  · -- ties among CREATE/UPDATEs of one kind keep the input's order
    intro t
    rw [hout, List.filter_append]
    have hBnil : B.filter (fun c => isCreateOrUpdate c && c.type == t) = [] := by
      rw [List.filter_eq_nil_iff]
      intro c hc
      simp [delete_not_isCreateOrUpdate (hB c hc)]
    rw [hBnil, List.append_nil, hAdef]
    rw [insertionSort_filter_eq (by
      intro x y hx hy
      have hxt : x.type = t := by
        have := band_true_parts hx
        simpa using this.2
      have hyt : y.type = t := by
        have := band_true_parts hy
        simpa using this.2
      show type_order x.type ≤ type_order y.type
      rw [hxt, hyt])]
    rw [List.filter_filter]
    apply List.filter_congr
    intro c _
    rcases hpc : (isCreateOrUpdate c && c.type == t) with _ | _
    · simp
    · have := band_true_parts hpc
      simp [this.1, this.2]
  · -- ties among DELETEs of one kind keep the input's order
    intro t
    rw [hout, List.filter_append]
    have hAnil : A.filter (fun c => isDeleteChange c && c.type == t) = [] := by
      rw [List.filter_eq_nil_iff]
      intro c hc
      have h := isCreateOrUpdate_ne_delete (hA c hc)
      simp only [isDeleteChange, Bool.and_eq_true, beq_iff_eq]
      intro hcon
      exact h hcon.1
    rw [hAnil, List.nil_append, hBdef]
    rw [insertionSort_filter_eq (by
      intro x y hx hy
      have hxt : x.type = t := by
        have := band_true_parts hx
        simpa using this.2
      have hyt : y.type = t := by
        have := band_true_parts hy
        simpa using this.2
      show type_order y.type ≤ type_order x.type
      rw [hxt, hyt])]
    rw [List.filter_filter]
    apply List.filter_congr
    intro c _
    rcases hpc : (isDeleteChange c && c.type == t) with _ | _
    · simp
    · have := band_true_parts hpc
      simp [this.1, this.2]

/-- Witness for C1 at a one-key local mapping against a one-key state
mapping: the emitted keys are exactly the sorted union. -/
theorem diff_complete_sound_witness :
    (diff [("named_value:k1", ⟨"named_value", "k1", "sha256:aa", .null, none, .nil⟩)]
          [("named_value:k0", ⟨"named_value", "k0", "sha256:bb", .null, none, .nil⟩)]).map
        (fun c => c.key) = ["named_value:k0", "named_value:k1"] := by
  rw [(diff_complete_sound _ _).1]
  rfl

/-- Witness for C3 at a two-change plan: the delete (position 1 of the
output) follows the create (position 0), and ties-filter equality holds at
the `api` kind. -/
theorem order_changes_spec_witness :
    (0 < 1) ∧
    ((order_changes
        [⟨DELETE, "named_value:x", "named_value", "x", some ⟨"named_value", "x", "h", .null, none, .nil⟩, none⟩,
         ⟨CREATE, "api:y", "api", "y", none, some ⟨"api", "y", "h2", .null, none, .nil⟩⟩]).filter
        (fun c => isCreateOrUpdate c && c.type == "api") =
      ([⟨DELETE, "named_value:x", "named_value", "x", some ⟨"named_value", "x", "h", .null, none, .nil⟩, none⟩,
        ⟨CREATE, "api:y", "api", "y", none, some ⟨"api", "y", "h2", .null, none, .nil⟩⟩] : List Change).filter
        (fun c => isCreateOrUpdate c && c.type == "api")) :=
  ⟨(order_changes_spec
      [⟨DELETE, "named_value:x", "named_value", "x", some ⟨"named_value", "x", "h", .null, none, .nil⟩, none⟩,
       ⟨CREATE, "api:y", "api", "y", none, some ⟨"api", "y", "h2", .null, none, .nil⟩⟩]).2.1
      1 0 (by decide) (by decide) (by rfl) (by rfl),
   (order_changes_spec _).2.2.2.2.1 "api"⟩

/-- Claim C5 (code bug) — a PUT answered 409 with error code
`"ResourceConflict"` is NOT treated as permanent: `_should_retry` matches the
substring `"Conflict"` (making its `"PessimisticConcurrencyConflict"`
disjunct redundant), so the request is retried until the budget is exhausted
(6 attempts) and the final exception is `ApimConflictError`, a subclass of
`ApimTransientError` — against the spec scenario S4, the spec's permanent
taxonomy for non-transient 409s, and the test
`test_should_not_retry_on_409_with_permanent_error_code`. -/
theorem resource_conflict_is_retried :
    ∃ d, parse_error ⟨409, some (.obj (.cons "error" (.obj (.cons "code" (.str "ResourceConflict")
          (.cons "message" (.str "API already exists") .nil))) .nil)), "", none⟩ = .ok d ∧
      should_retry ⟨409, some (.obj (.cons "error" (.obj (.cons "code" (.str "ResourceConflict")
          (.cons "message" (.str "API already exists") .nil))) .nil)), "", none⟩ d = .ok true ∧
      (with_retry (fun _ => ⟨409, some (.obj (.cons "error" (.obj (.cons "code" (.str "ResourceConflict")
          (.cons "message" (.str "API already exists") .nil))) .nil)), "", none⟩)).2 = 6 ∧
      ∃ e, (with_retry (fun _ => ⟨409, some (.obj (.cons "error" (.obj (.cons "code" (.str "ResourceConflict")
          (.cons "message" (.str "API already exists") .nil))) .nil)), "", none⟩)).1 =
        .error (.apim e) ∧ e.cls = .conflict ∧ isTransientCls e.cls = true :=
  ⟨_, rfl, rfl, rfl, _, rfl, rfl, rfl⟩

/-- Claim C10 (code bug) — error classification is not total: for a 409
whose body is not JSON, `_parse_error` stores `code = None`, and
`_should_retry` evaluates `"PessimisticConcurrencyConflict" in None`, raising
`TypeError`; the caller of the retry envelope receives that bare `TypeError`
instead of an `ApimError`. -/
theorem should_retry_crashes_on_unparsed_409 :
    parse_error ⟨409, none, "Conflict occurred", some "req-1"⟩ =
      .ok ⟨none, some (.str "Conflict occurred"), none, some "req-1"⟩ ∧
    should_retry ⟨409, none, "Conflict occurred", some "req-1"⟩
      ⟨none, some (.str "Conflict occurred"), none, some "req-1"⟩ = .error .typeError ∧
    (with_retry (fun _ => ⟨409, none, "Conflict occurred", some "req-1"⟩)).1 =
      .error .typeError ∧
    (with_retry (fun _ => ⟨409, none, "Conflict occurred", some "req-1"⟩)).2 = 1 ∧
    ∀ e : ApimExc,
      (with_retry (fun _ => ⟨409, none, "Conflict occurred", some "req-1"⟩)).1 ≠
        .error (.apim e) := by
  refine ⟨rfl, rfl, rfl, rfl, ?_⟩
  intro e h
  rw [show (with_retry (fun _ => (⟨409, none, "Conflict occurred", some "req-1"⟩ : HttpResponse))).1 =
      .error .typeError from rfl] at h
  simp at h

theorem with_retry_go_count (f : Nat → HttpResponse) :
    ∀ (remaining backoff attempt : Nat),
      (with_retry_go f backoff attempt remaining).2 ≤ attempt + remaining + 1 := by
  intro remaining
  induction remaining with
  | zero =>
      intro backoff attempt
      simp only [with_retry_go]
      split
      · simp
      · split
        · simp
        · split
          · simp
          · simp
  | succ r ih =>
      intro backoff attempt
      simp only [with_retry_go]
      split
      · simp
      · split
        · simp
        · split
          · simp
          · split
            · have := ih (backoff * 2) (attempt + 1)
              omega
            · simp

theorem with_retry_go_exhaust (f : Nat → HttpResponse)
    (hyp : ∀ n, n ≤ MAX_RETRIES → (f n).status_code ≥ 400 ∧
      ∃ d, parse_error (f n) = .ok d ∧ should_retry (f n) d = .ok true) :
    ∀ (remaining attempt backoff : Nat), attempt + remaining = MAX_RETRIES →
      ∃ d5, parse_error (f MAX_RETRIES) = .ok d5 ∧
        with_retry_go f backoff attempt remaining =
          (.error (.apim (create_exception (f MAX_RETRIES) d5)), MAX_RETRIES + 1) := by
  intro remaining
  induction remaining with
  | zero =>
      intro attempt backoff hsum
      have hatt : attempt = MAX_RETRIES := by omega
      subst hatt
      obtain ⟨hstatus, d, hd, hsr⟩ := hyp MAX_RETRIES (Nat.le_refl _)
      refine ⟨d, hd, ?_⟩
      have hnl : ¬ (f MAX_RETRIES).status_code < 400 := by omega
      simp only [with_retry_go, hnl, if_false, hd, hsr]
  | succ r ih =>
      intro attempt backoff hsum
      have hle : attempt ≤ MAX_RETRIES := by omega
      obtain ⟨hstatus, d, hd, hsr⟩ := hyp attempt hle
      have hnl : ¬ (f attempt).status_code < 400 := by omega
      obtain ⟨d5, hd5, hrec⟩ := ih (attempt + 1) (backoff * 2) (by omega)
      refine ⟨d5, hd5, ?_⟩
      simp only [with_retry_go, hnl, if_false, hd, hsr, if_true]
      exact hrec

/-- Claim C6 — every logical request makes at most 6 HTTP attempts (initial
plus up to `MAX_RETRIES = 5` retries), and when every attempt yields a
transient classification, the envelope raises the final attempt's
classification to the caller instead of returning a response. -/
theorem retry_budget (f : Nat → HttpResponse) :
    (with_retry f).2 ≤ 6 ∧
    ((∀ n, n ≤ MAX_RETRIES → (f n).status_code ≥ 400 ∧
        ∃ d, parse_error (f n) = .ok d ∧ should_retry (f n) d = .ok true) →
      ∃ d5, parse_error (f MAX_RETRIES) = .ok d5 ∧
        with_retry f = (.error (.apim (create_exception (f MAX_RETRIES) d5)), 6)) := by
  constructor
  · have := with_retry_go_count f MAX_RETRIES INITIAL_BACKOFF 0
    simpa [with_retry, MAX_RETRIES] using this
  · intro hyp
    obtain ⟨d5, hd5, h⟩ := with_retry_go_exhaust f hyp MAX_RETRIES 0 INITIAL_BACKOFF (by simp)
    exact ⟨d5, hd5, h⟩

/-- Witness for C6 at a stream of constant 429 responses: all six attempts
are transient, and the envelope raises the rate-limit classification. -/
theorem retry_budget_witness :
    (∀ n : Nat, n ≤ MAX_RETRIES →
      (⟨429, some (.obj (.cons "error" (.obj (.cons "code" (.str "RateLimitExceeded") .nil)) .nil)),
        "", none⟩ : HttpResponse).status_code ≥ 400) ∧
    ∃ d5, parse_error (⟨429, some (.obj (.cons "error" (.obj (.cons "code" (.str "RateLimitExceeded") .nil)) .nil)),
          "", none⟩ : HttpResponse) = .ok d5 ∧
      with_retry (fun _ => (⟨429, some (.obj (.cons "error" (.obj (.cons "code" (.str "RateLimitExceeded") .nil)) .nil)),
          "", none⟩ : HttpResponse)) =
        (.error (.apim (create_exception (⟨429, some (.obj (.cons "error" (.obj (.cons "code" (.str "RateLimitExceeded") .nil)) .nil)),
          "", none⟩ : HttpResponse) d5)), 6) := by
  constructor
  · intro n _
    decide
  · exact (retry_budget (fun _ => (⟨429,
      some (.obj (.cons "error" (.obj (.cons "code" (.str "RateLimitExceeded") .nil)) .nil)),
      "", none⟩ : HttpResponse))).2
      (fun n _ => ⟨by decide, ⟨⟨some (.str "RateLimitExceeded"), none, none, none⟩, rfl, rfl⟩⟩)

/-- Claim C7 — a DELETE whose REST call reports 404: the transport raises
`ApimNotFoundError`, `ApimClient.delete` swallows it (already-gone is
success), and the applier records the change as successful and removes the
artifact's key from the state's mapping (then stamps `last_applied` and
writes once more after the loop). -/
theorem delete_404_swallowed :
    (∀ (f : Nat → HttpResponse) (d : ErrorDetail),
        (f 0).status_code = 404 → parse_error (f 0) = .ok d → client_delete f = .ok ()) ∧
    (∀ (mods : Registry) (oracle : RestOracle) (now : String) (st : ApplyState)
        (c : Change) (a : Artifact) (e : ApimExc),
        c.action = DELETE → c.old = some a → e.cls = .notFound →
        oracle 0 (RestOp.delete ((mods c.type).resource_path a.id)) = .error (.apim e) →
        apply_plan mods oracle now [c] st =
          ((1, 1, none),
           [.rest (RestOp.delete ((mods c.type).resource_path a.id)),
            .store_write (dict_pop st.artifacts c.key) st.last_applied,
            .store_write (dict_pop st.artifacts c.key) (some now)],
           ⟨dict_pop st.artifacts c.key, some now⟩)) := by
  constructor
  · intro f d h404 hd
    have hsr : should_retry (f 0) d = .ok false := by
      simp [should_retry, h404]
    have hnl : ¬ (f 0).status_code < 400 := by omega
    have hcls : (create_exception (f 0) d).cls = .notFound := by
      simp [create_exception, h404]
    have hrun : (with_retry f).1 = .error (.apim (create_exception (f 0) d)) := by
      simp only [with_retry, MAX_RETRIES, INITIAL_BACKOFF]
      simp only [with_retry_go, hnl, if_false, hd, hsr]
      simp
    unfold client_delete
    rw [hrun]
    simp [hcls]
  · intro mods oracle now st c a e hdel hold hcls horacle
    have hne1 : (c.action == CREATE) = false := by simp [hdel, CREATE, DELETE]
    have hne2 : (c.action == UPDATE) = false := by simp [hdel, UPDATE, DELETE]
    have heq3 : (c.action == DELETE) = true := by simp [hdel]
    have hexec : exec_change mods oracle 0 c =
        ([.rest (RestOp.delete ((mods c.type).resource_path a.id))], 1, none) := by
      simp [exec_change, hne1, hne2, heq3, hold, horacle, hcls]
    have hupd : update_state c st.artifacts = dict_pop st.artifacts c.key := by
      simp [update_state, hne1, hne2, heq3]
    simp only [apply_plan, List.filter, hne1, hne2, heq3, Bool.or_false, Bool.or_true,
      Bool.false_or]
    simp only [List.isEmpty_cons, if_false]
    have hord : order_changes [c] = [c] := by
      simp [order_changes, isCreateOrUpdate, isDeleteChange, hne1, hne2, heq3,
        List.insertionSort, List.orderedInsert]
    rw [hord]
    simp only [apply_go, hexec, hupd]
    rfl

/-- Witness for C7: a 404 on DELETE at one concrete change removes
`named_value:k` from state and the run reports full success. -/
theorem delete_404_swallowed_witness :
    client_delete (fun _ => ⟨404, none, "", none⟩) = .ok () ∧
    apply_plan (fun _ => ⟨fun i => "/namedValues/" ++ i, fun _ => .ok .null⟩)
      (fun _ _ => .error (.apim ⟨.notFound, "HTTP 404", some 404, none, none, none⟩)) "T0"
      [⟨DELETE, "named_value:k", "named_value", "k",
        some ⟨"named_value", "k", "sha256:x", .null, none, .nil⟩, none⟩]
      ⟨[("named_value:k", ⟨"named_value", "k", "sha256:x", .null⟩)], none⟩ =
      ((1, 1, none),
       [.rest (RestOp.delete "/namedValues/k"),
        .store_write [] none,
        .store_write [] (some "T0")],
       ⟨[], some "T0"⟩) :=
  ⟨delete_404_swallowed.1 (fun _ => ⟨404, none, "", none⟩)
      ⟨none, some (.str "HTTP 404"), none, none⟩ (by decide) rfl,
   delete_404_swallowed.2 (fun _ => ⟨fun i => "/namedValues/" ++ i, fun _ => .ok .null⟩)
      (fun _ _ => .error (.apim ⟨.notFound, "HTTP 404", some 404, none, none, none⟩)) "T0"
      ⟨[("named_value:k", ⟨"named_value", "k", "sha256:x", .null⟩)], none⟩
      ⟨DELETE, "named_value:k", "named_value", "k",
        some ⟨"named_value", "k", "sha256:x", .null, none, .nil⟩, none⟩
      ⟨"named_value", "k", "sha256:x", .null, none, .nil⟩
      ⟨.notFound, "HTTP 404", some 404, none, none, none⟩
      rfl rfl rfl rfl⟩

theorem fieldsApp_nil_left (b : JsonFields) : fieldsApp .nil b = b := rfl

theorem fieldsApp_nil_right : ∀ a : JsonFields, fieldsApp a .nil = a
  | .nil => rfl
  | .cons k v tl => by simp [fieldsApp, fieldsApp_nil_right tl]

theorem fieldsApp_single_cons (k : String) (v : Json) (c : JsonFields) :
    ∀ a : JsonFields, fieldsApp (fieldsApp a (.cons k v .nil)) c = fieldsApp a (.cons k v c)
  | .nil => rfl
  | .cons k2 v2 tl => by simp [fieldsApp, fieldsApp_single_cons k v c tl]

theorem fieldsHasKey_app (b : JsonFields) (n : String) :
    ∀ a : JsonFields, fieldsHasKey (fieldsApp a b) n = (fieldsHasKey a n || fieldsHasKey b n)
  | .nil => by simp [fieldsApp, fieldsHasKey]
  | .cons k v tl => by
      by_cases h : k = n <;> simp [fieldsApp, fieldsHasKey, h, fieldsHasKey_app b n tl]

theorem fieldsSet_fresh (k : String) (v : Json) :
    ∀ a : JsonFields, fieldsHasKey a k = false → fieldsSet a k v = fieldsApp a (.cons k v .nil)
  | .nil, _ => rfl
  | .cons k2 v2 tl, h => by
      simp only [fieldsHasKey, Bool.or_eq_false_iff] at h
      have hne : ¬ k2 = k := by
        intro e
        rw [e] at h
        simp at h
      simp [fieldsSet, fieldsApp, hne, fieldsSet_fresh k v tl h.2]

theorem listNodup_cons {x : String} {xs : List String} (h : listNodup (x :: xs) = true) :
    xs.contains x = false ∧ listNodup xs = true := by
  simp only [listNodup, Bool.and_eq_true, Bool.not_eq_true'] at h
  exact h

theorem outName_of_not_ref {k : String} (h : isRefKey k = false) : outName k = k := by
  simp only [isRefKey, Bool.or_eq_false_iff] at h
  simp [outName, h.1, h.2]

theorem noCollisions_obj (fields : JsonFields) :
    noCollisions (.obj fields) =
      (listNodup (fieldsOutNames fields) && noCollisionsEntries fields) := rfl

theorem noCollisionsEntries_cons (k : String) (v : Json) (tl : JsonFields) :
    noCollisionsEntries (.cons k v tl) =
      if isRefKey k then
        noCollisionsEntries tl
      else
        match v with
        | .obj f => noCollisions (.obj f) && noCollisionsEntries tl
        | .arr items => noCollisionsInList items && noCollisionsEntries tl
        | _ => noCollisionsEntries tl := by
  rw [noCollisionsEntries.eq_def]

theorem noCollisionsInList_cons (hd : Json) (tl : JsonList) :
    noCollisionsInList (.cons hd tl) =
      match hd with
      | .obj f => noCollisions (.obj f) && noCollisionsInList tl
      | _ => noCollisionsInList tl := by
  rw [noCollisionsInList.eq_def]

theorem noCollisions_obj_parts {fields : JsonFields}
    (h : noCollisions (.obj fields) = true) :
    listNodup (fieldsOutNames fields) = true ∧ noCollisionsEntries fields = true := by
  rw [noCollisions_obj] at h
  exact band_true_parts h

theorem noCollisionsEntries_tail_ref {k : String} {v : Json} {tl : JsonFields}
    (hrk : isRefKey k = true) (h : noCollisionsEntries (.cons k v tl) = true) :
    noCollisionsEntries tl = true := by
  rw [noCollisionsEntries_cons, hrk] at h
  simpa using h

theorem noCollisionsEntries_tail {k : String} {v : Json} {tl : JsonFields}
    (h : noCollisionsEntries (.cons k v tl) = true) :
    noCollisionsEntries tl = true := by
  rw [noCollisionsEntries_cons] at h
  by_cases hrk : isRefKey k = true
  · rw [hrk] at h
    simpa using h
  · rw [Bool.not_eq_true] at hrk
    rw [hrk] at h
    cases v <;> simp [Bool.and_eq_true] at h <;>
      first
      | exact h
      | exact h.2

theorem noCollisionsEntries_cons_obj {k : String} {f tl : JsonFields}
    (hrk : isRefKey k = false) (h : noCollisionsEntries (.cons k (.obj f) tl) = true) :
    noCollisions (.obj f) = true ∧ noCollisionsEntries tl = true := by
  rw [noCollisionsEntries_cons, hrk] at h
  simp only [Bool.false_eq_true, if_false] at h
  exact band_true_parts h

theorem noCollisionsEntries_cons_arr {k : String} {items : JsonList} {tl : JsonFields}
    (hrk : isRefKey k = false) (h : noCollisionsEntries (.cons k (.arr items) tl) = true) :
    noCollisionsInList items = true ∧ noCollisionsEntries tl = true := by
  rw [noCollisionsEntries_cons, hrk] at h
  simp only [Bool.false_eq_true, if_false] at h
  exact band_true_parts h

theorem noCollisionsInList_cons_obj {f : JsonFields} {tl : JsonList}
    (h : noCollisionsInList (.cons (.obj f) tl) = true) :
    noCollisions (.obj f) = true ∧ noCollisionsInList tl = true := by
  rw [noCollisionsInList_cons] at h
  exact band_true_parts h

theorem noCollisionsInList_tail {hd : Json} {tl : JsonList}
    (h : noCollisionsInList (.cons hd tl) = true) :
    noCollisionsInList tl = true := by
  rw [noCollisionsInList_cons] at h
  cases hd <;> simp [Bool.and_eq_true] at h <;>
    first
    | exact h
    | exact h.2

theorem resolve_refs_obj (fs : FS) (base : String) (fields : JsonFields) :
    resolve_refs fs base (.obj fields) =
      match resolveFieldsGo fs base fields .nil with
      | .ok r => .ok (.obj r)
      | .error e => .error e := by
  rw [resolve_refs.eq_def]

theorem resolve_refs_spec_obj (fs : FS) (base : String) (fields : JsonFields) :
    resolve_refs_spec fs base (.obj fields) =
      match resolveSpecFields fs base fields with
      | .ok r => .ok (.obj r)
      | .error e => .error e := by
  rw [resolve_refs_spec.eq_def]

theorem resolveFieldsGo_nil (fs : FS) (base : String) (acc : JsonFields) :
    resolveFieldsGo fs base .nil acc = .ok acc := by
  rw [resolveFieldsGo.eq_def]

theorem resolveSpecFields_nil (fs : FS) (base : String) :
    resolveSpecFields fs base .nil = .ok .nil := by
  simp [resolveSpecFields]

theorem resolveFieldsGo_cons_ref (fs : FS) (base key : String) (value : Json)
    (tl acc : JsonFields) (h1 : charsStartWith "$ref-".data key.data = true) :
    resolveFieldsGo fs base (.cons key value tl) acc =
      resolveFieldsGo fs base tl (fieldsSet acc (String.mk (key.data.drop 5))
        (match value with
         | .str pathStr =>
             match fs_lookup fs (os_path_join base pathStr) with
             | some fc => Json.str fc.text
             | none => value
         | _ => value)) := by
  rw [resolveFieldsGo.eq_def]
  simp [h1]

theorem resolveSpecFields_cons_ref (fs : FS) (base key : String) (value : Json)
    (tl : JsonFields) (h1 : charsStartWith "$ref-".data key.data = true) :
    resolveSpecFields fs base (.cons key value tl) =
      match resolveSpecFields fs base tl with
      | .ok tl2 => .ok (.cons (String.mk (key.data.drop 5))
          (match value with
           | .str pathStr =>
               match fs_lookup fs (os_path_join base pathStr) with
               | some fc => Json.str fc.text
               | none => value
           | _ => value) tl2)
      | .error e => .error e := by
  cases value <;> simp [resolveSpecFields, h1]

theorem resolveFieldsGo_cons_refs (fs : FS) (base key : String) (value : Json)
    (tl acc : JsonFields) (h1 : charsStartWith "$ref-".data key.data = false)
    (h2 : charsStartWith "$refs-".data key.data = true) :
    resolveFieldsGo fs base (.cons key value tl) acc =
      match (match value with
             | Json.str pathStr =>
                 match fs_lookup fs (os_path_join base pathStr) with
                 | some fc =>
                     match fc.parsed with
                     | some j => Except.ok j
                     | none => Except.error PyExc.valueError
                 | none => Except.ok value
             | _ => Except.ok value : Except PyExc Json) with
      | .ok v => resolveFieldsGo fs base tl (fieldsSet acc (String.mk (key.data.drop 6)) v)
      | .error e => .error e := by
  rw [resolveFieldsGo.eq_def]
  simp [h1, h2]

theorem resolveSpecFields_cons_refs (fs : FS) (base key : String) (value : Json)
    (tl : JsonFields) (h1 : charsStartWith "$ref-".data key.data = false)
    (h2 : charsStartWith "$refs-".data key.data = true) :
    resolveSpecFields fs base (.cons key value tl) =
      match (match value with
             | Json.str pathStr =>
                 match fs_lookup fs (os_path_join base pathStr) with
                 | some fc =>
                     match fc.parsed with
                     | some j => Except.ok j
                     | none => Except.error PyExc.valueError
                 | none => Except.ok value
             | _ => Except.ok value : Except PyExc Json) with
      | .ok v =>
          match resolveSpecFields fs base tl with
          | .ok tl2 => .ok (.cons (String.mk (key.data.drop 6)) v tl2)
          | .error e => .error e
      | .error e => .error e := by
  cases value <;> simp [resolveSpecFields, h1, h2]

theorem resolveFieldsGo_cons_objval (fs : FS) (base key : String) (f : JsonFields)
    (tl acc : JsonFields) (h1 : charsStartWith "$ref-".data key.data = false)
    (h2 : charsStartWith "$refs-".data key.data = false) :
    resolveFieldsGo fs base (.cons key (.obj f) tl) acc =
      match resolve_refs fs base (.obj f) with
      | .ok v => resolveFieldsGo fs base tl (fieldsSet acc key v)
      | .error e => .error e := by
  rw [resolveFieldsGo.eq_def]
  simp [h1, h2]

theorem resolveSpecFields_cons_objval (fs : FS) (base key : String) (f : JsonFields)
    (tl : JsonFields) (h1 : charsStartWith "$ref-".data key.data = false)
    (h2 : charsStartWith "$refs-".data key.data = false) :
    resolveSpecFields fs base (.cons key (.obj f) tl) =
      match resolve_refs_spec fs base (.obj f) with
      | .ok v =>
          match resolveSpecFields fs base tl with
          | .ok tl2 => .ok (.cons key v tl2)
          | .error e => .error e
      | .error e => .error e := by
  simp [resolveSpecFields, h1, h2]

theorem resolveFieldsGo_cons_arrval (fs : FS) (base key : String) (items : JsonList)
    (tl acc : JsonFields) (h1 : charsStartWith "$ref-".data key.data = false)
    (h2 : charsStartWith "$refs-".data key.data = false) :
    resolveFieldsGo fs base (.cons key (.arr items) tl) acc =
      match resolveListItems fs base items with
      | .ok items2 => resolveFieldsGo fs base tl (fieldsSet acc key (.arr items2))
      | .error e => .error e := by
  rw [resolveFieldsGo.eq_def]
  simp [h1, h2]

theorem resolveSpecFields_cons_arrval (fs : FS) (base key : String) (items : JsonList)
    (tl : JsonFields) (h1 : charsStartWith "$ref-".data key.data = false)
    (h2 : charsStartWith "$refs-".data key.data = false) :
    resolveSpecFields fs base (.cons key (.arr items) tl) =
      match resolveSpecListItems fs base items with
      | .ok items2 =>
          match resolveSpecFields fs base tl with
          | .ok tl2 => .ok (.cons key (.arr items2) tl2)
          | .error e => .error e
      | .error e => .error e := by
  simp [resolveSpecFields, h1, h2]

theorem resolveFieldsGo_cons_scalar (fs : FS) (base key : String) (value : Json)
    (tl acc : JsonFields) (h1 : charsStartWith "$ref-".data key.data = false)
    (h2 : charsStartWith "$refs-".data key.data = false)
    (hno : ∀ g : JsonFields, value ≠ .obj g) (hna : ∀ l : JsonList, value ≠ .arr l) :
    resolveFieldsGo fs base (.cons key value tl) acc =
      resolveFieldsGo fs base tl (fieldsSet acc key value) := by
  rw [resolveFieldsGo.eq_def]
  simp only [h1, h2, Bool.false_eq_true, if_false]

theorem resolveSpecFields_cons_scalar (fs : FS) (base key : String) (value : Json)
    (tl : JsonFields) (h1 : charsStartWith "$ref-".data key.data = false)
    (h2 : charsStartWith "$refs-".data key.data = false)
    (hno : ∀ g : JsonFields, value ≠ .obj g) (hna : ∀ l : JsonList, value ≠ .arr l) :
    resolveSpecFields fs base (.cons key value tl) =
      match resolveSpecFields fs base tl with
      | .ok tl2 => .ok (.cons key value tl2)
      | .error e => .error e := by
  cases value with
  | obj g => exact absurd rfl (hno g)
  | arr l => exact absurd rfl (hna l)
  | null => simp [resolveSpecFields, h1, h2]
  | bool b => simp [resolveSpecFields, h1, h2]
  | num n => simp [resolveSpecFields, h1, h2]
  | str s => simp [resolveSpecFields, h1, h2]

theorem resolveListItems_cons_objval (fs : FS) (base : String) (f : JsonFields)
    (tl : JsonList) :
    resolveListItems fs base (.cons (.obj f) tl) =
      match resolve_refs fs base (.obj f) with
      | .ok hd2 =>
          match resolveListItems fs base tl with
          | .ok tl2 => .ok (.cons hd2 tl2)
          | .error e => .error e
      | .error e => .error e := by
  rw [resolveListItems.eq_def]

theorem resolveSpecListItems_cons_objval (fs : FS) (base : String) (f : JsonFields)
    (tl : JsonList) :
    resolveSpecListItems fs base (.cons (.obj f) tl) =
      match resolve_refs_spec fs base (.obj f) with
      | .ok hd2 =>
          match resolveSpecListItems fs base tl with
          | .ok tl2 => .ok (.cons hd2 tl2)
          | .error e => .error e
      | .error e => .error e := by
  simp [resolveSpecListItems]

theorem resolveListItems_cons_other (fs : FS) (base : String) (hd : Json) (tl : JsonList)
    (hno : ∀ g : JsonFields, hd ≠ .obj g) :
    resolveListItems fs base (.cons hd tl) =
      match resolveListItems fs base tl with
      | .ok tl2 => .ok (.cons hd tl2)
      | .error e => .error e := by
  rw [resolveListItems.eq_def]
  cases hd with
  | obj g => exact absurd rfl (hno g)
  | null => rfl
  | bool b => rfl
  | num n => rfl
  | str s => rfl
  | arr l => rfl

theorem resolveSpecListItems_cons_other (fs : FS) (base : String) (hd : Json) (tl : JsonList)
    (hno : ∀ g : JsonFields, hd ≠ .obj g) :
    resolveSpecListItems fs base (.cons hd tl) =
      match resolveSpecListItems fs base tl with
      | .ok tl2 => .ok (.cons hd tl2)
      | .error e => .error e := by
  cases hd with
  | obj g => exact absurd rfl (hno g)
  | null => simp [resolveSpecListItems]
  | bool b => simp [resolveSpecListItems]
  | num n => simp [resolveSpecListItems]
  | str s => simp [resolveSpecListItems]
  | arr l => simp [resolveSpecListItems]

mutual
theorem resolveJson_eq (fs : FS) (base : String) :
    ∀ j : Json, noCollisions j = true →
      resolve_refs fs base j = resolve_refs_spec fs base j
  | .null, _ => rfl
  | .bool _, _ => rfl
  | .num _, _ => rfl
  | .str _, _ => rfl
  | .arr _, _ => rfl
  | .obj fields, h => by
      have hparts : listNodup (fieldsOutNames fields) = true ∧
          noCollisionsEntries fields = true := noCollisions_obj_parts h
      have hgo := resolveFields_eq fs base fields .nil hparts.1 hparts.2
        (fun n _ => rfl)
      rw [resolve_refs_obj, resolve_refs_spec_obj, hgo]
      cases hspec : resolveSpecFields fs base fields <;>
        simp [hspec, Except.map, fieldsApp_nil_left]
termination_by j _ => jsonSize j
decreasing_by all_goals
  simp only [jsonSize, fieldsSize, listSize] <;> omega
theorem resolveFields_eq (fs : FS) (base : String) :
    ∀ (flds : JsonFields) (acc : JsonFields),
      listNodup (fieldsOutNames flds) = true →
      noCollisionsEntries flds = true →
      (∀ n, (fieldsOutNames flds).contains n = true → fieldsHasKey acc n = false) →
      resolveFieldsGo fs base flds acc =
        (resolveSpecFields fs base flds).map (fun r => fieldsApp acc r)
  | .nil, acc, _, _, _ => by
      rw [resolveFieldsGo_nil, resolveSpecFields_nil]
      simp [Except.map, fieldsApp_nil_right]
  | .cons key value tl, acc, hnodup, hnc, hfresh => by
      have hout : fieldsOutNames (.cons key value tl) = outName key :: fieldsOutNames tl := rfl
      rw [hout] at hnodup hfresh
      obtain ⟨hni, hnd2⟩ := listNodup_cons hnodup
      have hkfresh : fieldsHasKey acc (outName key) = false := by
        apply hfresh
        simp
      have hfresh2 : ∀ (v : Json) (n : String), (fieldsOutNames tl).contains n = true →
          fieldsHasKey (fieldsApp acc (.cons (outName key) v .nil)) n = false := by
        intro v n hn
        rw [fieldsHasKey_app]
        have hx1 : fieldsHasKey acc n = false := by
          apply hfresh
          have hmem : n ∈ fieldsOutNames tl := by simpa using hn
          simp [hmem]
        have hx2 : ¬ outName key = n := by
          intro he
          rw [he] at hni
          rw [hni] at hn
          exact absurd hn (by simp)
        simp [fieldsHasKey, hx1, hx2]
      have hstep : ∀ (hnc2 : noCollisionsEntries tl = true) (v : Json),
          resolveFieldsGo fs base tl (fieldsSet acc (outName key) v) =
            Except.map (fun r => fieldsApp acc r)
              (match resolveSpecFields fs base tl with
               | .ok tl2 => .ok (.cons (outName key) v tl2)
               | .error e => .error e) := by
        intro hnc2 v
        rw [fieldsSet_fresh (outName key) v acc hkfresh]
        rw [resolveFields_eq fs base tl (fieldsApp acc (.cons (outName key) v .nil))
            hnd2 hnc2 (hfresh2 v)]
        cases hspec : resolveSpecFields fs base tl <;>
          simp [hspec, Except.map, fieldsApp_single_cons]
      by_cases h1 : charsStartWith "$ref-".data key.data
      · have hrk : isRefKey key = true := by simp [isRefKey, h1]
        have hnc2 : noCollisionsEntries tl = true := noCollisionsEntries_tail_ref hrk hnc
        have houtk : outName key = String.mk (key.data.drop 5) := by
          simp [outName, h1]
        rw [resolveFieldsGo_cons_ref fs base key value tl acc h1,
            resolveSpecFields_cons_ref fs base key value tl h1, ← houtk]
        exact hstep hnc2 _
      · by_cases h2 : charsStartWith "$refs-".data key.data
        · have hrk : isRefKey key = true := by simp [isRefKey, h2]
          have hnc2 : noCollisionsEntries tl = true := noCollisionsEntries_tail_ref hrk hnc
          have houtk : outName key = String.mk (key.data.drop 6) := by
            simp [outName, h1, h2]
          have h1f : charsStartWith "$ref-".data key.data = false := by
            simpa using h1
          rw [resolveFieldsGo_cons_refs fs base key value tl acc h1f h2,
              resolveSpecFields_cons_refs fs base key value tl h1f h2, ← houtk]
          cases value with
          | str pathStr =>
              cases hlk : fs_lookup fs (os_path_join base pathStr) with
              | none =>
                  simp only [hlk]
                  exact hstep hnc2 _
              | some fc =>
                  cases hp : fc.parsed with
                  | none => simp [hlk, hp, Except.map]
                  | some j =>
                      simp only [hlk, hp]
                      exact hstep hnc2 _
          | null => exact hstep hnc2 _
          | bool b => exact hstep hnc2 _
          | num n => exact hstep hnc2 _
          | arr items => exact hstep hnc2 _
          | obj f => exact hstep hnc2 _
        · have hrk : isRefKey key = false := by simp [isRefKey, h1, h2]
          have h1f : charsStartWith "$ref-".data key.data = false := by simpa using h1
          have h2f : charsStartWith "$refs-".data key.data = false := by simpa using h2
          have houtk : outName key = key := outName_of_not_ref hrk
          rw [houtk] at hkfresh hfresh2 hni hstep
          cases hval : value with
          | null =>
              rw [resolveFieldsGo_cons_scalar fs base key .null tl acc h1f h2f
                    (fun g hg => nomatch hg) (fun l hl => nomatch hl),
                  resolveSpecFields_cons_scalar fs base key .null tl h1f h2f
                    (fun g hg => nomatch hg) (fun l hl => nomatch hl)]
              exact hstep (noCollisionsEntries_tail hnc) _
          | bool b =>
              rw [resolveFieldsGo_cons_scalar fs base key (.bool b) tl acc h1f h2f
                    (fun g hg => nomatch hg) (fun l hl => nomatch hl),
                  resolveSpecFields_cons_scalar fs base key (.bool b) tl h1f h2f
                    (fun g hg => nomatch hg) (fun l hl => nomatch hl)]
              exact hstep (noCollisionsEntries_tail hnc) _
          | num n =>
              rw [resolveFieldsGo_cons_scalar fs base key (.num n) tl acc h1f h2f
                    (fun g hg => nomatch hg) (fun l hl => nomatch hl),
                  resolveSpecFields_cons_scalar fs base key (.num n) tl h1f h2f
                    (fun g hg => nomatch hg) (fun l hl => nomatch hl)]
              exact hstep (noCollisionsEntries_tail hnc) _
          | str s =>
              rw [resolveFieldsGo_cons_scalar fs base key (.str s) tl acc h1f h2f
                    (fun g hg => nomatch hg) (fun l hl => nomatch hl),
                  resolveSpecFields_cons_scalar fs base key (.str s) tl h1f h2f
                    (fun g hg => nomatch hg) (fun l hl => nomatch hl)]
              exact hstep (noCollisionsEntries_tail hnc) _
          | obj f =>
              rw [hval] at hnc
              have hncs : noCollisions (.obj f) = true ∧ noCollisionsEntries tl = true :=
                noCollisionsEntries_cons_obj hrk hnc
              rw [resolveFieldsGo_cons_objval fs base key f tl acc h1f h2f,
                  resolveSpecFields_cons_objval fs base key f tl h1f h2f,
                  resolveJson_eq fs base (.obj f) hncs.1]
              cases hj : resolve_refs_spec fs base (.obj f) with
              | error e => simp [hj, Except.map]
              | ok v =>
                  simp only [hj]
                  exact hstep hncs.2 _
          | arr items =>
              rw [hval] at hnc
              have hncs : noCollisionsInList items = true ∧ noCollisionsEntries tl = true :=
                noCollisionsEntries_cons_arr hrk hnc
              rw [resolveFieldsGo_cons_arrval fs base key items tl acc h1f h2f,
                  resolveSpecFields_cons_arrval fs base key items tl h1f h2f,
                  resolveList_eq fs base items hncs.1]
              cases hj : resolveSpecListItems fs base items with
              | error e => simp [hj, Except.map]
              | ok v =>
                  simp only [hj]
                  exact hstep hncs.2 _
termination_by flds acc _ _ _ => fieldsSize flds
decreasing_by all_goals first
  | (simp only [jsonSize, fieldsSize, listSize] <;> omega)
  | (simp only [hval, jsonSize, fieldsSize, listSize] <;> omega)
theorem resolveList_eq (fs : FS) (base : String) :
    ∀ items : JsonList, noCollisionsInList items = true →
      resolveListItems fs base items = resolveSpecListItems fs base items
  | .nil, _ => rfl
  | .cons hd tl, h => by
      cases hhd : hd with
      | obj f =>
          rw [hhd] at h
          have hparts : noCollisions (.obj f) = true ∧ noCollisionsInList tl = true :=
            noCollisionsInList_cons_obj h
          rw [resolveListItems_cons_objval fs base f tl,
              resolveSpecListItems_cons_objval fs base f tl,
              resolveJson_eq fs base (.obj f) hparts.1,
              resolveList_eq fs base tl hparts.2]
      | null =>
          rw [hhd] at h
          have h2 : noCollisionsInList tl = true := noCollisionsInList_tail h
          rw [resolveListItems_cons_other fs base .null tl (fun g hg => nomatch hg),
              resolveSpecListItems_cons_other fs base .null tl (fun g hg => nomatch hg),
              resolveList_eq fs base tl h2]
      | bool b =>
          rw [hhd] at h
          have h2 : noCollisionsInList tl = true := noCollisionsInList_tail h
          rw [resolveListItems_cons_other fs base (.bool b) tl (fun g hg => nomatch hg),
              resolveSpecListItems_cons_other fs base (.bool b) tl (fun g hg => nomatch hg),
              resolveList_eq fs base tl h2]
      | num n =>
          rw [hhd] at h
          have h2 : noCollisionsInList tl = true := noCollisionsInList_tail h
          rw [resolveListItems_cons_other fs base (.num n) tl (fun g hg => nomatch hg),
              resolveSpecListItems_cons_other fs base (.num n) tl (fun g hg => nomatch hg),
              resolveList_eq fs base tl h2]
      | str s =>
          rw [hhd] at h
          have h2 : noCollisionsInList tl = true := noCollisionsInList_tail h
          rw [resolveListItems_cons_other fs base (.str s) tl (fun g hg => nomatch hg),
              resolveSpecListItems_cons_other fs base (.str s) tl (fun g hg => nomatch hg),
              resolveList_eq fs base tl h2]
      | arr its =>
          rw [hhd] at h
          have h2 : noCollisionsInList tl = true := noCollisionsInList_tail h
          rw [resolveListItems_cons_other fs base (.arr its) tl (fun g hg => nomatch hg),
              resolveSpecListItems_cons_other fs base (.arr its) tl (fun g hg => nomatch hg),
              resolveList_eq fs base tl h2]
termination_by items _ => listSize items
decreasing_by all_goals first
  | (simp only [jsonSize, fieldsSize, listSize] <;> omega)
  | (simp only [hhd, jsonSize, fieldsSize, listSize] <;> omega)
end

/-- C8: on any mapping whose resolver-visible entries contribute pairwise
distinct output keys, `resolve_refs` agrees with the claim-shaped resolver
`resolve_refs_spec`: every `$ref-<name>` entry whose string value names an
existing file becomes `<name>` bound to that file's raw text (`$refs-<name>`
to the file parsed as JSON, failing when it does not parse), a missing file
leaves `<name>` bound to the original path string, nested mappings and
mapping elements of sequences are recursed into, and every other value is
left unchanged. -/
theorem resolve_refs_matches_spec (fs : FS) (base_dir : String) (props : Json)
    (h : noCollisions props = true) :
    resolve_refs fs base_dir props = resolve_refs_spec fs base_dir props :=
  resolveJson_eq fs base_dir props h

/-- Witness for C8 at a concrete mapping exercising a `$ref-` hit, a
`$refs-` hit, a missing file, a nested mapping and a sequence element. -/
theorem resolve_refs_matches_spec_witness :
    noCollisions (.obj (.cons "$ref-policy" (.str "p.xml")
      (.cons "$refs-conf" (.str "c.json")
        (.cons "name" (.str "a")
          (.cons "sub" (.obj (.cons "$ref-miss" (.str "nofile") .nil))
            (.cons "list" (.arr (.cons (.obj (.cons "x" .null .nil)) .nil))
              .nil)))))) = true ∧
    resolve_refs
        [("base/p.xml", ⟨"policy-text", none, none⟩),
         ("base/c.json", ⟨"7", some (.num 7), none⟩)] "base"
        (.obj (.cons "$ref-policy" (.str "p.xml")
          (.cons "$refs-conf" (.str "c.json")
            (.cons "name" (.str "a")
              (.cons "sub" (.obj (.cons "$ref-miss" (.str "nofile") .nil))
                (.cons "list" (.arr (.cons (.obj (.cons "x" .null .nil)) .nil))
                  .nil)))))) =
      resolve_refs_spec
        [("base/p.xml", ⟨"policy-text", none, none⟩),
         ("base/c.json", ⟨"7", some (.num 7), none⟩)] "base"
        (.obj (.cons "$ref-policy" (.str "p.xml")
          (.cons "$refs-conf" (.str "c.json")
            (.cons "name" (.str "a")
              (.cons "sub" (.obj (.cons "$ref-miss" (.str "nofile") .nil))
                (.cons "list" (.arr (.cons (.obj (.cons "x" .null .nil)) .nil))
                  .nil)))))) :=
  ⟨by decide,
   resolve_refs_matches_spec
     [("base/p.xml", ⟨"policy-text", none, none⟩),
      ("base/c.json", ⟨"7", some (.num 7), none⟩)] "base"
     (.obj (.cons "$ref-policy" (.str "p.xml")
       (.cons "$refs-conf" (.str "c.json")
         (.cons "name" (.str "a")
           (.cons "sub" (.obj (.cons "$ref-miss" (.str "nofile") .nil))
             (.cons "list" (.arr (.cons (.obj (.cons "x" .null .nil)) .nil))
               .nil))))))
     (by decide)⟩

set_option maxRecDepth 1000000 in
/-- C9: the extract round-trip is NOT hash-preserving. For a live APIM with a
single API `echo` whose properties are the empty object and which has no
operations, `read_live` hashes the composite of the raw live properties; but
`write_local` injects an `"id": "/apis/echo"` entry into the properties file
it writes, so `read_local` over the written tree recomputes the composite
hash over the enlarged object. The (kind, id) pairs survive the round trip,
the (kind, id, hash) triples do not. -/
theorem extract_round_trip_changes_api_hash :
    read_live_apis ⟨.ok [⟨"echo", some (.obj .nil)⟩], fun _ => .ok []⟩ =
      .ok [("api:echo", ⟨"api", "echo",
        compute_hash (apiComposite (.obj .nil) none .nil), .obj .nil, none, .nil⟩)] ∧
    write_local_apis "out"
      [("api:echo", ⟨"api", "echo",
        compute_hash (apiComposite (.obj .nil) none .nil), .obj .nil, none, .nil⟩)] =
      .ok [("out/apis/echo/apiInformation.json",
        fileOfJson (.obj (.cons "id" (.str "/apis/echo") .nil)))] ∧
    read_local_apis
      [("out/apis/echo/apiInformation.json",
        fileOfJson (.obj (.cons "id" (.str "/apis/echo") .nil)))] "out" =
      .ok [("api:echo", ⟨"api", "echo",
        compute_hash (apiComposite (.obj (.cons "id" (.str "/apis/echo") .nil)) none .nil),
        .obj (.cons "id" (.str "/apis/echo") .nil), none, .nil⟩)] ∧
    compute_hash (apiComposite (.obj .nil) none .nil) ≠
      compute_hash (apiComposite (.obj (.cons "id" (.str "/apis/echo") .nil)) none .nil) :=
  ⟨rfl, rfl, rfl, by decide⟩

theorem run_op_puts_rest (oracle : RestOracle) (api_id : String) :
    ∀ (pairs : List (String × Json)) (evs : List Event) (n : Nat),
      (∀ ev ∈ evs, isRestEvent ev = true) →
      ∀ ev ∈ (run_op_puts oracle api_id pairs evs n).1, isRestEvent ev = true
  | [], evs, n, h => by
      simpa [run_op_puts] using h
  | (op_id, payload) :: rest, evs, n, h => by
      intro ev hev
      have hbase : ∀ e2 ∈ evs ++
          [Event.rest (RestOp.put ("/apis/" ++ api_id ++ "/operations/" ++ op_id) payload)],
          isRestEvent e2 = true := by
        intro e2 he2
        rcases List.mem_append.mp he2 with h1 | h1
        · exact h e2 h1
        · simp only [List.mem_singleton] at h1
          subst h1
          rfl
      simp only [run_op_puts] at hev
      revert hev
      split
      · intro hev
        exact run_op_puts_rest oracle api_id rest _ _ hbase ev hev
      · intro hev
        exact hbase ev hev

theorem exec_change_rest (mods : Registry) (oracle : RestOracle) (n : Nat) (c : Change) :
    ∀ ev ∈ (exec_change mods oracle n c).1, isRestEvent ev = true := by
  intro ev hev
  simp only [exec_change] at hev
  by_cases hcu : (c.action == CREATE || c.action == UPDATE) = true
  · rw [if_pos hcu] at hev
    cases hnew : c.new with
    | none =>
        simp [hnew] at hev
    | some a =>
        simp only [hnew] at hev
        cases hpay : (mods c.type).to_rest_payload a with
        | error e =>
            simp [hpay] at hev
        | ok payload =>
            simp only [hpay] at hev
            cases hor : oracle n (RestOp.put ((mods c.type).resource_path a.id) payload) with
            | error e =>
                simp only [hor, List.mem_singleton] at hev
                subst hev
                rfl
            | ok u =>
                simp only [hor] at hev
                by_cases hapi : (c.type == "api") = true
                · rw [if_pos hapi] at hev
                  cases hops : to_operation_payloads a with
                  | error e =>
                      simp only [hops, List.mem_singleton] at hev
                      subst hev
                      rfl
                  | ok pairs =>
                      simp only [hops] at hev
                      refine run_op_puts_rest oracle a.id pairs _ _ ?_ ev hev
                      intro e2 he2
                      simp only [List.mem_singleton] at he2
                      subst he2
                      rfl
                · rw [if_neg hapi] at hev
                  simp only [List.mem_singleton] at hev
                  subst hev
                  rfl
  · rw [if_neg hcu] at hev
    by_cases hdel : (c.action == DELETE) = true
    · rw [if_pos hdel] at hev
      cases hold : c.old with
      | none =>
          simp [hold] at hev
      | some a =>
          simp only [hold] at hev
          cases hor : oracle n (RestOp.delete ((mods c.type).resource_path a.id)) with
          | ok u =>
              simp only [hor, List.mem_singleton] at hev
              subst hev
              rfl
          | error e =>
              cases e with
              | apim a2 =>
                  by_cases hnf : a2.cls = ApimCls.notFound
                  · simp only [hor, hnf, List.mem_singleton] at hev
                    simp at hev
                    subst hev
                    rfl
                  · simp only [hor, List.mem_singleton] at hev
                    rw [if_neg hnf] at hev
                    simp only [List.mem_singleton] at hev
                    subst hev
                    rfl
              | typeError =>
                  simp only [hor, List.mem_singleton] at hev
                  subst hev
                  rfl
              | attributeError =>
                  simp only [hor, List.mem_singleton] at hev
                  subst hev
                  rfl
              | valueError =>
                  simp only [hor, List.mem_singleton] at hev
                  subst hev
                  rfl
    · rw [if_neg hdel] at hev
      simp at hev

theorem apply_go_spec (mods : Registry) (oracle : RestOracle) (now : String) :
    ∀ (cs : List Change) (st : ApplyState) (n s0 : Nat),
      ∃ (k : Nat) (segs : List (List Event)) (tail : List Event) (msg : Option String),
        apply_go mods oracle now cs st n s0 =
          ((s0 + k, msg), segs.join ++ tail,
           ⟨apply_fold (cs.take k) st.artifacts,
            if k = cs.length then some now else st.last_applied⟩) ∧
        k ≤ cs.length ∧
        segs.length = k ∧
        (∀ i, i < k →
          ∃ revs : List Event, (∀ ev ∈ revs, isRestEvent ev = true) ∧
            segs[i]? = some (revs ++
              [.store_write (apply_fold (cs.take (i + 1)) st.artifacts) st.last_applied])) ∧
        (if k = cs.length then
          msg = none ∧ tail = [.store_write (apply_fold cs st.artifacts) (some now)]
        else (∃ m, msg = some m) ∧ ∀ ev ∈ tail, isRestEvent ev = true) := by
  intro cs
  induction cs with
  | nil =>
      intro st n s0
      refine ⟨0, [], [.store_write st.artifacts (some now)], none, ?_, ?_, rfl, ?_, ?_⟩
      · simp [apply_go, apply_fold]
      · exact Nat.le_refl 0
      · intro i hi
        exact absurd hi (Nat.not_lt_zero i)
      · simp [apply_fold]
  | cons c rest ih =>
      intro st n s0
      rcases hx : exec_change mods oracle n c with ⟨evs, n2, oe⟩
      cases oe with
      | some e =>
          refine ⟨0, [], evs, some (error_message_for e), ?_, ?_, rfl, ?_, ?_⟩
          · simp [apply_go, hx, apply_fold]
          · exact Nat.zero_le _
          · intro i hi
            exact absurd hi (Nat.not_lt_zero i)
          · have hne : ¬ (0 = (c :: rest).length) := by simp
            rw [if_neg hne]
            refine ⟨⟨error_message_for e, rfl⟩, ?_⟩
            intro ev hev
            exact exec_change_rest mods oracle n c ev (by rw [hx]; exact hev)
      | none =>
          obtain ⟨k2, segs2, tail2, msg2, h1, h2, h3, h4, h5⟩ :=
            ih ⟨update_state c st.artifacts, st.last_applied⟩ n2 (s0 + 1)
          refine ⟨k2 + 1,
            (evs ++ [.store_write (update_state c st.artifacts) st.last_applied]) :: segs2,
            tail2, msg2, ?_, ?_, ?_, ?_, ?_⟩
          · simp only [apply_go, hx, h1]
            have harith : s0 + (k2 + 1) = s0 + 1 + k2 := by omega
            rw [harith]
            by_cases hkl : k2 = rest.length
            · have hkl2 : k2 + 1 = (c :: rest).length := by simp [hkl]
              simp [hkl, hkl2, List.take_succ_cons, apply_fold, List.append_assoc]
            · have hkl2 : ¬ (k2 + 1 = (c :: rest).length) := by
                simp only [List.length_cons]
                omega
              simp [hkl, hkl2, List.take_succ_cons, apply_fold, List.append_assoc]
          · simp only [List.length_cons]
            omega
          · simp [h3]
          · intro i hi
            cases i with
            | zero =>
                refine ⟨evs, ?_, ?_⟩
                · intro ev hev
                  exact exec_change_rest mods oracle n c ev (by rw [hx]; exact hev)
                · simp [List.take_succ_cons, apply_fold]
            | succ j =>
                obtain ⟨revs, hr1, hr2⟩ := h4 j (by omega)
                refine ⟨revs, hr1, ?_⟩
                simp only [List.getElem?_cons_succ, hr2]
                simp [List.take_succ_cons, apply_fold]
          · by_cases hkl : k2 = rest.length
            · have hkl2 : k2 + 1 = (c :: rest).length := by simp [hkl]
              rw [if_pos hkl2]
              rw [if_pos hkl] at h5
              refine ⟨h5.1, ?_⟩
              rw [h5.2]
              simp [apply_fold]
            · have hkl2 : ¬ (k2 + 1 = (c :: rest).length) := by
                simp only [List.length_cons]
                omega
              rw [if_neg hkl2]
              rw [if_neg hkl] at h5
              exact h5

/-- C4: a normal-mode apply is incrementally persistent and stops at the
first exception. The run decomposes into one trace segment per successfully
applied change, each consisting of that change's REST calls followed by
exactly one state-store write whose content is the artifacts dict after
folding `_update_state` over the changes applied so far (entry added or
replaced on CREATE/UPDATE, removed on DELETE) — so the write for change i
precedes every REST call of change i+1. On full success the loop stamps
`last_applied` and writes once more, returning (total, total, none); on the
first exception it stops, returns (succeeded, total, message) with all
previously applied changes still recorded in the state and nothing rolled
back, and the failing change contributes only REST events, no write. -/
theorem apply_plan_incremental (mods : Registry) (oracle : RestOracle) (now : String)
    (plan_changes : List Change) (st : ApplyState)
    (hne : (plan_changes.filter
      (fun c => c.action == CREATE || c.action == UPDATE || c.action == DELETE)).isEmpty
        = false) :
    ∃ (k : Nat) (segs : List (List Event)) (tail : List Event) (msg : Option String),
      apply_plan mods oracle now plan_changes st =
        ((k, (ordered_changes plan_changes).length, msg), segs.join ++ tail,
         ⟨apply_fold ((ordered_changes plan_changes).take k) st.artifacts,
          if k = (ordered_changes plan_changes).length then some now
          else st.last_applied⟩) ∧
      k ≤ (ordered_changes plan_changes).length ∧
      segs.length = k ∧
      (∀ i, i < k →
        ∃ revs : List Event, (∀ ev ∈ revs, isRestEvent ev = true) ∧
          segs[i]? = some (revs ++
            [.store_write
              (apply_fold ((ordered_changes plan_changes).take (i + 1)) st.artifacts)
              st.last_applied])) ∧
      (if k = (ordered_changes plan_changes).length then
        msg = none ∧
        tail = [.store_write (apply_fold (ordered_changes plan_changes) st.artifacts)
          (some now)]
      else (∃ m, msg = some m) ∧ ∀ ev ∈ tail, isRestEvent ev = true) := by
  obtain ⟨k, segs, tail, msg, h1, h2, h3, h4, h5⟩ :=
    apply_go_spec mods oracle now (ordered_changes plan_changes) st 0 0
  refine ⟨k, segs, tail, msg, ?_, h2, h3, h4, h5⟩
  rw [Nat.zero_add] at h1
  simp only [apply_plan, hne, Bool.false_eq_true, if_false, ordered_changes] at h1 ⊢
  rw [h1]

/-- Witness for C4: one CREATE change applied against an all-success
transport; the hypothesis (a nonempty actionable plan) holds by computation. -/
theorem apply_plan_incremental_witness :
    (([(⟨CREATE, "named_value:k", "named_value", "k", none,
        some ⟨"named_value", "k", "sha256:x", .null, none, .nil⟩⟩ : Change)].filter
      (fun c => c.action == CREATE || c.action == UPDATE || c.action == DELETE)).isEmpty
        = false) ∧
    (∃ (k : Nat) (segs : List (List Event)) (tail : List Event) (msg : Option String),
      apply_plan (fun _ => ⟨fun i => "/namedValues/" ++ i, fun _ => .ok .null⟩)
          (fun _ _ => .ok ()) "T1"
          [⟨CREATE, "named_value:k", "named_value", "k", none,
            some ⟨"named_value", "k", "sha256:x", .null, none, .nil⟩⟩]
          ⟨[], none⟩ =
        ((k, (ordered_changes [⟨CREATE, "named_value:k", "named_value", "k", none,
            some ⟨"named_value", "k", "sha256:x", .null, none, .nil⟩⟩]).length, msg),
         segs.join ++ tail,
         ⟨apply_fold ((ordered_changes [⟨CREATE, "named_value:k", "named_value", "k", none,
            some ⟨"named_value", "k", "sha256:x", .null, none, .nil⟩⟩]).take k) [],
          if k = (ordered_changes [⟨CREATE, "named_value:k", "named_value", "k", none,
            some ⟨"named_value", "k", "sha256:x", .null, none, .nil⟩⟩]).length then some "T1"
          else none⟩) ∧
      k ≤ (ordered_changes [⟨CREATE, "named_value:k", "named_value", "k", none,
        some ⟨"named_value", "k", "sha256:x", .null, none, .nil⟩⟩]).length ∧
      segs.length = k ∧
      (∀ i, i < k →
        ∃ revs : List Event, (∀ ev ∈ revs, isRestEvent ev = true) ∧
          segs[i]? = some (revs ++
            [.store_write
              (apply_fold ((ordered_changes [⟨CREATE, "named_value:k", "named_value", "k",
                none, some ⟨"named_value", "k", "sha256:x", .null, none, .nil⟩⟩]).take
                  (i + 1)) [])
              none])) ∧
      (if k = (ordered_changes [⟨CREATE, "named_value:k", "named_value", "k", none,
          some ⟨"named_value", "k", "sha256:x", .null, none, .nil⟩⟩]).length then
        msg = none ∧
        tail = [.store_write (apply_fold (ordered_changes [⟨CREATE, "named_value:k",
          "named_value", "k", none,
          some ⟨"named_value", "k", "sha256:x", .null, none, .nil⟩⟩]) []) (some "T1")]
      else (∃ m, msg = some m) ∧ ∀ ev ∈ tail, isRestEvent ev = true)) :=
  ⟨by decide,
   apply_plan_incremental (fun _ => ⟨fun i => "/namedValues/" ++ i, fun _ => .ok .null⟩)
     (fun _ _ => .ok ()) "T1"
     [⟨CREATE, "named_value:k", "named_value", "k", none,
       some ⟨"named_value", "k", "sha256:x", .null, none, .nil⟩⟩]
     ⟨[], none⟩ (by decide)⟩
